import Mathlib

/-!
# Battery event bridge (`browser/event/battery/typeBattery.go`)

A shallow embedding of the Go package `battery`: the snapshot getters of `Event`, `Battery.Now`,
`EventManager`, and the four `AddListener…` / `RemoveListener…` pairs of `Battery`.

The package talks to the browser through Go's `syscall/js`. The part of `syscall/js` the package
uses is modelled in the first section, following the documented behaviour of that library:
`Value.Get`, `Value.Call`, `Value.Bool`, `Value.Int` and `Value.Float` panic with a `*js.ValueError`
when the receiver has the wrong JavaScript type, and the zero `js.Value` is `undefined`.
A panic is the `error` side of `Except`.

State that the Go code keeps in the host or in package variables is passed explicitly in `World`.
`Battery.Init` is not embedded: its only effect on this state is the assignment
`objectBactery = args[0]` once the host has resolved the battery object, so a world before `Init`
is one whose `objectBactery` is still the zero `js.Value`, and a world after it is one whose
`objectBactery` refers to a host object.
-/

namespace battery

/-! ## The `syscall/js` values the package handles -/

/-- The JavaScript type of a value, as `js.Value.Type` reports it. -/
inductive JSType
  | TypeUndefined
  | TypeNull
  | TypeBoolean
  | TypeNumber
  | TypeString
  | TypeObject
deriving DecidableEq, Repr

/-- A `float64`: a finite value `mant * 2 ^ exp`, an infinity, or a NaN. -/
inductive Float64
  | finite (mant : Int) (exp : Int)
  | posInf
  | negInf
  | nan
deriving DecidableEq, Repr

/-- The `float64` of an integer. -/
def Float64.ofInt (v : Int) : Float64 := .finite v 0

/-- The smallest Go `int` on js/wasm, where `int` has 64 bits. -/
def minInt : Int := -(2 ^ 63)

/-- The largest Go `int` on js/wasm. -/
def maxInt : Int := 2 ^ 63 - 1

/-- Go's conversion `int(f)` of a `float64`: the fraction is discarded (truncation towards zero).
When the truncated value does not fit an `int`, or `f` is not finite, Go leaves the result to the
implementation. The model follows the current js/wasm toolchain, which saturates: the largest
`int` above the range and at `+Inf`, the smallest `int` below the range and at `-Inf`, `0` at
NaN. Earlier toolchains answer the smallest `int` in all these cases. No claim below states the
value of a duration outside the integers that fit an `int`, where every toolchain agrees. -/
def Float64.toInt : Float64 → Int
  | .finite mant exp =>
    let t : Int := if 0 ≤ exp then mant * 2 ^ exp.toNat else mant.tdiv (2 ^ (-exp).toNat)
    if t < minInt then minInt else if maxInt < t then maxInt else t
  | .posInf => maxInt
  | .negInf => minInt
  | .nan => 0

/-- A `js.Value`. Objects live in the host and are held by reference. -/
inductive Value
  | undefined
  | null
  | boolean (b : Bool)
  | number (x : Float64)
  | string (s : String)
  | object (ref : Nat)
deriving DecidableEq, Repr

/-- The zero `js.Value`, written `js.Value{}` in Go, is JavaScript's `undefined`. -/
instance : Inhabited Value := ⟨Value.undefined⟩

/-- Model of `js.Value.Type` (`Type` is reserved in Lean, hence `TypeOf`). -/
def Value.TypeOf : Value → JSType
  | .undefined => .TypeUndefined
  | .null => .TypeNull
  | .boolean _ => .TypeBoolean
  | .number _ => .TypeNumber
  | .string _ => .TypeString
  | .object _ => .TypeObject

/-- Results of the same kind can be compared. -/
instance instDecidableEqExcept {ε α : Type} [DecidableEq ε] [DecidableEq α] :
    DecidableEq (Except ε α)
  | .ok a, .ok b => if h : a = b then isTrue (by rw [h]) else isFalse (fun h2 => h (by cases h2; rfl))
  | .error a, .error b =>
    if h : a = b then isTrue (by rw [h]) else isFalse (fun h2 => h (by cases h2; rfl))
  | .ok _, .error _ => isFalse (fun h => by cases h)
  | .error _, .ok _ => isFalse (fun h => by cases h)

/-- The panic value `*js.ValueError`: a `Value` method was called on a value of the wrong type. -/
structure ValueError where
  Method : String
  TypeOf : JSType
deriving DecidableEq, Repr

/-- Model of `js.Type.String`. -/
def JSType.String : JSType → String
  | .TypeUndefined => "undefined"
  | .TypeNull => "null"
  | .TypeBoolean => "boolean"
  | .TypeNumber => "number"
  | .TypeString => "string"
  | .TypeObject => "object"

/-- Model of `(*js.ValueError).Error`, the message of the panic. -/
def ValueError.Error (e : ValueError) : String :=
  "syscall/js: call of " ++ e.Method ++ " on " ++ e.TypeOf.String

/-- Model of `js.Value.Bool`: panics if the value is not a JavaScript boolean. -/
def Value.Bool : Value → Except ValueError Bool
  | .boolean b => .ok b
  | v => .error ⟨"Value.Bool", v.TypeOf⟩

/-- Model of `js.Value.Float`: panics if the value is not a JavaScript number. -/
def Value.Float : Value → Except ValueError Float64
  | .number x => .ok x
  | v => .error ⟨"Value.Float", v.TypeOf⟩

/-- Model of `js.Value.Int`: the number truncated to an `int`; panics if the value is not a
JavaScript number. -/
def Value.Int : Value → Except ValueError Int
  | .number x => .ok x.toInt
  | v => .error ⟨"Value.Int", v.TypeOf⟩

/-! ## Data carried by the package -/

/-- Go type `EventName`, a string type. -/
abbrev EventName := String

/-- Constant `KEventChargingChange`. -/
def KEventChargingChange : EventName := "chargingchange"

/-- Constant `KEventChargingTimeChange`. -/
def KEventChargingTimeChange : EventName := "chargingtimechange"

/-- Constant `KEventDischargingTimeChange`. -/
def KEventDischargingTimeChange : EventName := "dischargingtimechange"

/-- Constant `KEventLevelChange`. -/
def KEventLevelChange : EventName := "levelchange"

/-- Go struct `Data`: the snapshot delivered to the application. -/
structure Data where
  EventName : EventName
  This : Value
  Charging : Bool
  ChargingTime : Int
  DischargingTime : Int
  Level : Float64
deriving DecidableEq, Repr

/-- A Go channel `chan Data`, known by its identity. -/
abbrev Chan := Nat

/-- The Go closure every `AddListener…` method wraps with `js.FuncOf`. It captures the event name
constant written in its body and the channel `batteryData`; see `GoFunc.invoke` for its body. -/
structure GoFunc where
  name : EventName
  batteryData : Chan
deriving DecidableEq, Repr

/-- A `js.Func`: the identity `js.FuncOf` gave the wrapped function, and the Go closure behind
it. -/
structure Func where
  id : Nat
  fn : GoFunc
deriving DecidableEq, Repr

/-! ## The host -/

/-- A host object (an event target such as the `BatteryManager`): its readable properties and the
callbacks registered with `addEventListener`, oldest first, each under its event type. -/
structure HostObject where
  props : List (String × Value)
  listeners : List (String × Func)
deriving DecidableEq, Repr

/-- A reference that names no object reads as an object without properties or listeners. -/
instance : Inhabited HostObject := ⟨⟨[], []⟩⟩

/-- The host's objects; `Value.object ref` refers to position `ref`. -/
abbrev Heap := List HostObject

/-- Model of `js.Value.Get`: the property `p` of an object, `undefined` when the object has no
such property; panics if the receiver is not a JavaScript object. -/
def Value.Get (h : Heap) (v : Value) (p : String) : Except ValueError Value :=
  match v with
  | .object ref => .ok (((h.getD ref default).props.lookup p).getD .undefined)
  | _ => .error ⟨"Value.Get", v.TypeOf⟩

/-- One call `objectBactery.Call(method, eventType, callback)` made by the package. -/
structure HostCall where
  method : String
  eventType : String
  callback : Func
deriving DecidableEq, Repr

/-- Everything outside a `Battery` value that the package reads or writes: the package variable
`objectBactery`, the host's objects, the counter `js.FuncOf` draws identities from, the sends
performed on Go channels (oldest first), and the calls made on `objectBactery` (oldest first). -/
structure World where
  objectBactery : Value
  heap : Heap
  nextFuncID : Nat
  sent : List (Chan × Data)
  calls : List HostCall
deriving DecidableEq, Repr

/-! ## Snapshot getters -/

/-- Go struct `Event`. -/
structure Event where
  Object : Value
deriving DecidableEq, Repr

/-- Method `Event.GetIsCharging`. -/
def Event.GetIsCharging (h : Heap) (e : Event) : Except ValueError Bool := do
  let v ← e.Object.Get h "charging"
  v.Bool

/-- Method `Event.GetChargingTime`. -/
def Event.GetChargingTime (h : Heap) (e : Event) : Except ValueError Int := do
  let v ← e.Object.Get h "chargingTime"
  let chargingTime ← v.Int
  if chargingTime < 0 then
    pure (-1)
  else
    pure chargingTime

/-- Method `Event.GetDischargingTime`. -/
def Event.GetDischargingTime (h : Heap) (e : Event) : Except ValueError Int := do
  let v ← e.Object.Get h "dischargingTime"
  let dischargingTime ← v.Int
  if dischargingTime < 0 then
    pure (-1)
  else
    pure dischargingTime

/-- Method `Event.GetLevel`. -/
def Event.GetLevel (h : Heap) (e : Event) : Except ValueError Float64 := do
  let v ← e.Object.Get h "level"
  v.Float

/-- Function `EventManager`. The third argument (`args`) is ignored, as in the source. -/
def EventManager (w : World) (name : EventName) (this : Value) (_args : List Value) :
    Except ValueError Data := do
  let event : Event := { Object := w.objectBactery }
  let charging ← event.GetIsCharging w.heap
  let chargingTime ← event.GetChargingTime w.heap
  let dischargingTime ← event.GetDischargingTime w.heap
  let level ← event.GetLevel w.heap
  pure { EventName := name, This := this, Charging := charging, ChargingTime := chargingTime,
         DischargingTime := dischargingTime, Level := level }

/-! ## The bridge -/

/-- Go struct `Battery`: one optional callback handle per event kind (`nil` is `none`). -/
structure Battery where
  fnChargingChange : Option Func
  fnChargingTimeChange : Option Func
  fnDischargingTimeChange : Option Func
  fnLevelChange : Option Func
deriving DecidableEq, Repr

/-- Method `Battery.Now`. -/
def Battery.Now (_e : Battery) (w : World) : Except ValueError Data := do
  let event : Event := { Object := w.objectBactery }
  let charging ← event.GetIsCharging w.heap
  let chargingTime ← event.GetChargingTime w.heap
  let dischargingTime ← event.GetDischargingTime w.heap
  let level ← event.GetLevel w.heap
  pure { EventName := "battery now", This := default, Charging := charging,
         ChargingTime := chargingTime, DischargingTime := dischargingTime, Level := level }

/-! ## Host calls and callbacks -/

/-- Model of `js.FuncOf`: wraps a Go function and gives it the next free identity. -/
def FuncOf (w : World) (fn : GoFunc) : Func × World :=
  (⟨w.nextFuncID, fn⟩, { w with nextFuncID := w.nextFuncID + 1 })

/-- The host's `addEventListener(type, callback)`: the callback is appended to the listener list,
unless the same callback is already registered under the same type. -/
def HostObject.addEventListener (o : HostObject) (type : String) (callback : Func) : HostObject :=
  if o.listeners.any (fun l => l.1 = type ∧ l.2.id = callback.id) then o
  else { o with listeners := o.listeners ++ [(type, callback)] }

/-- The host's `removeEventListener(type, callback)`: the callback registered under that type is
taken off the listener list. -/
def HostObject.removeEventListener (o : HostObject) (type : String) (callback : Func) :
    HostObject :=
  { o with listeners := o.listeners.filter (fun l => ¬ (l.1 = type ∧ l.2.id = callback.id)) }

/-- Model of `js.Value.Call` for the two calls the package makes,
`v.Call("addEventListener", type, callback)` and `v.Call("removeEventListener", type, callback)`.
It panics if the receiver is not a JavaScript object, and it panics if the object has no method
of the given name (in Go this second panic carries a plain message; here it is the `ValueError`
of an undefined property). Every call that goes through is recorded in `calls`. -/
def Value.Call (w : World) (v : Value) (m : String) (type : String) (callback : Func) :
    Except ValueError World :=
  match v with
  | .object ref =>
    let o := w.heap.getD ref default
    if m = "addEventListener" then
      .ok { w with heap := w.heap.set ref (o.addEventListener type callback),
                   calls := w.calls ++ [⟨m, type, callback⟩] }
    else if m = "removeEventListener" then
      .ok { w with heap := w.heap.set ref (o.removeEventListener type callback),
                   calls := w.calls ++ [⟨m, type, callback⟩] }
    else
      .error ⟨"Value.Call", .TypeUndefined⟩
  | _ => .error ⟨"Value.Call", v.TypeOf⟩

/-- The body of the closure the `AddListener…` methods pass to `js.FuncOf`:
`if len(args) == 0 { return nil }; batteryData <- EventManager(name, this, args); return nil`.
The send is recorded at the end of `sent`. -/
def GoFunc.invoke (f : GoFunc) (w : World) (this : Value) (args : List Value) :
    Except ValueError World :=
  if args.length = 0 then
    .ok w
  else do
    let data ← EventManager w f.name this args
    pure { w with sent := w.sent ++ [(f.batteryData, data)] }

/-- The callbacks registered at host object `ref` under event type `type`, oldest first. -/
def listenersFor (w : World) (ref : Nat) (type : String) : List Func :=
  ((w.heap.getD ref default).listeners.filter (fun l => l.1 = type)).map (fun l => l.2)

/-- The host invokes the callbacks of `fs` in order, each with `this` and `args`. -/
def invokeAll (w : World) (fs : List Func) (this : Value) (args : List Value) :
    Except ValueError World :=
  match fs with
  | [] => .ok w
  | f :: rest => do
    let w1 ← f.fn.invoke w this args
    invokeAll w1 rest this args

/-- The host fires an event of type `type` at object `ref`: every callback registered there under
that type is invoked, oldest first, with `this` and `args`. -/
def fire (w : World) (ref : Nat) (type : String) (this : Value) (args : List Value) :
    Except ValueError World :=
  invokeAll w (listenersFor w ref type) this args

/-- The values sent on channel `ch` so far, oldest first. -/
def received (w : World) (ch : Chan) : List Data :=
  (w.sent.filter (fun s => s.1 = ch)).map (fun s => s.2)

/-! ## Listener registration -/

/-- Method `Battery.AddListenerChargingChange`. As in the source, the handle is stored before the
host call; if that call panics the program stops, and the result is the panic alone. -/
def Battery.AddListenerChargingChange (e : Battery) (batteryData : Chan) (w : World) :
    Except ValueError (Battery × World) :=
  if e.fnChargingChange ≠ none then
    .ok (e, w)
  else do
    let (fn, w1) := FuncOf w ⟨KEventChargingChange, batteryData⟩
    let e1 := { e with fnChargingChange := some fn }
    let w2 ← w1.objectBactery.Call w1 "addEventListener" "chargingchange" fn
    pure (e1, w2)

/-- Method `Battery.RemoveListenerChargingChange`. As in the source, the `js.Func` is not
released, only unregistered and forgotten. -/
def Battery.RemoveListenerChargingChange (e : Battery) (w : World) :
    Except ValueError (Battery × World) :=
  match e.fnChargingChange with
  | none => .ok (e, w)
  | some fn => do
    let w1 ← w.objectBactery.Call w "removeEventListener" "chargingchange" fn
    pure ({ e with fnChargingChange := none }, w1)

/-- Method `Battery.AddListenerChargingTimeChange`. -/
def Battery.AddListenerChargingTimeChange (e : Battery) (batteryData : Chan) (w : World) :
    Except ValueError (Battery × World) :=
  if e.fnChargingTimeChange ≠ none then
    .ok (e, w)
  else do
    let (fn, w1) := FuncOf w ⟨KEventChargingTimeChange, batteryData⟩
    let e1 := { e with fnChargingTimeChange := some fn }
    let w2 ← w1.objectBactery.Call w1 "addEventListener" "chargingtimechange" fn
    pure (e1, w2)

/-- Method `Battery.RemoveListenerChargingTimeChange`. -/
def Battery.RemoveListenerChargingTimeChange (e : Battery) (w : World) :
    Except ValueError (Battery × World) :=
  match e.fnChargingTimeChange with
  | none => .ok (e, w)
  | some fn => do
    let w1 ← w.objectBactery.Call w "removeEventListener" "chargingtimechange" fn
    pure ({ e with fnChargingTimeChange := none }, w1)

/-- Method `Battery.AddListenerDischargingTimeChange`. -/
def Battery.AddListenerDischargingTimeChange (e : Battery) (batteryData : Chan) (w : World) :
    Except ValueError (Battery × World) :=
  if e.fnDischargingTimeChange ≠ none then
    .ok (e, w)
  else do
    let (fn, w1) := FuncOf w ⟨KEventDischargingTimeChange, batteryData⟩
    let e1 := { e with fnDischargingTimeChange := some fn }
    let w2 ← w1.objectBactery.Call w1 "addEventListener" "dischargingtimechange" fn
    pure (e1, w2)

/-- Method `Battery.RemoveListenerDischargingTimeChange`. -/
def Battery.RemoveListenerDischargingTimeChange (e : Battery) (w : World) :
    Except ValueError (Battery × World) :=
  match e.fnDischargingTimeChange with
  | none => .ok (e, w)
  | some fn => do
    let w1 ← w.objectBactery.Call w "removeEventListener" "dischargingtimechange" fn
    pure ({ e with fnDischargingTimeChange := none }, w1)

/-- Method `Battery.AddListenerLevelChange`. -/
def Battery.AddListenerLevelChange (e : Battery) (batteryData : Chan) (w : World) :
    Except ValueError (Battery × World) :=
  if e.fnLevelChange ≠ none then
    .ok (e, w)
  else do
    let (fn, w1) := FuncOf w ⟨KEventLevelChange, batteryData⟩
    let e1 := { e with fnLevelChange := some fn }
    let w2 ← w1.objectBactery.Call w1 "addEventListener" "levelchange" fn
    pure (e1, w2)

/-- Method `Battery.RemoveListenerLevelChange`. -/
def Battery.RemoveListenerLevelChange (e : Battery) (w : World) :
    Except ValueError (Battery × World) :=
  match e.fnLevelChange with
  | none => .ok (e, w)
  | some fn => do
    let w1 ← w.objectBactery.Call w "removeEventListener" "levelchange" fn
    pure ({ e with fnLevelChange := none }, w1)

/-! ## Vocabulary for the statements -/

/-- The four event kinds, one per `AddListener…` / `RemoveListener…` pair. -/
inductive Kind
  | chargingChange
  | chargingTimeChange
  | dischargingTimeChange
  | levelChange
deriving DecidableEq, Repr

/-- The `EventName` constant of a kind. -/
def Kind.name : Kind → EventName
  | .chargingChange => KEventChargingChange
  | .chargingTimeChange => KEventChargingTimeChange
  | .dischargingTimeChange => KEventDischargingTimeChange
  | .levelChange => KEventLevelChange

/-- The handle field of a kind. -/
def Battery.handle (e : Battery) : Kind → Option Func
  | .chargingChange => e.fnChargingChange
  | .chargingTimeChange => e.fnChargingTimeChange
  | .dischargingTimeChange => e.fnDischargingTimeChange
  | .levelChange => e.fnLevelChange

/-- The `AddListener…` method of a kind. -/
def Battery.addListener (k : Kind) (e : Battery) (batteryData : Chan) (w : World) :
    Except ValueError (Battery × World) :=
  match k with
  | .chargingChange => e.AddListenerChargingChange batteryData w
  | .chargingTimeChange => e.AddListenerChargingTimeChange batteryData w
  | .dischargingTimeChange => e.AddListenerDischargingTimeChange batteryData w
  | .levelChange => e.AddListenerLevelChange batteryData w

/-- The `RemoveListener…` method of a kind. -/
def Battery.removeListener (k : Kind) (e : Battery) (w : World) :
    Except ValueError (Battery × World) :=
  match k with
  | .chargingChange => e.RemoveListenerChargingChange w
  | .chargingTimeChange => e.RemoveListenerChargingTimeChange w
  | .dischargingTimeChange => e.RemoveListenerDischargingTimeChange w
  | .levelChange => e.RemoveListenerLevelChange w

/-- The `Battery` zero value: no handle stored. -/
def Battery.empty : Battery := ⟨none, none, none, none⟩

/-- The canonicalisation both duration getters apply to the raw `int`. -/
def normalize (v : Int) : Int := if v < 0 then -1 else v

/-- The host object at `ref` reports charging flag `c`, charging time `t`, discharging time `d`
(both integers that fit a Go `int`) and level `l`. -/
def HasState (h : Heap) (ref : Nat) (c : Bool) (t d : Int) (l : Float64) : Prop :=
  (h.getD ref default).props.lookup "charging" = some (.boolean c) ∧
  (h.getD ref default).props.lookup "chargingTime" = some (.number (.ofInt t)) ∧
  (h.getD ref default).props.lookup "dischargingTime" = some (.number (.ofInt d)) ∧
  (h.getD ref default).props.lookup "level" = some (.number l) ∧
  minInt ≤ t ∧ t ≤ maxInt ∧ minInt ≤ d ∧ d ≤ maxInt

/-- Whether a heap object reports a given state can be computed. -/
instance (h : Heap) (ref : Nat) (c : Bool) (t d : Int) (l : Float64) :
    Decidable (HasState h ref c t d l) := by
  unfold HasState; infer_instance

/-- Acquisition has completed: `objectBactery` refers to a host object that exists. -/
def Ready (w : World) (ref : Nat) : Prop :=
  w.objectBactery = .object ref ∧ ref < w.heap.length

/-- Whether acquisition has completed can be computed. -/
instance (w : World) (ref : Nat) : Decidable (Ready w ref) := by
  unfold Ready; infer_instance

/-- One call on the bridge: an `AddListener…` with its channel, or a `RemoveListener…`. -/
inductive Op
  | add (k : Kind) (batteryData : Chan)
  | remove (k : Kind)
deriving DecidableEq, Repr

/-- The bridge performs one call. -/
def Battery.step (s : Battery × World) : Op → Except ValueError (Battery × World)
  | .add k batteryData => s.1.addListener k batteryData s.2
  | .remove k => s.1.removeListener k s.2

/-- The bridge performs a sequence of calls, first to last. -/
def Battery.run (s : Battery × World) : List Op → Except ValueError (Battery × World)
  | [] => .ok s
  | op :: rest => do
    let s1 ← Battery.step s op
    Battery.run s1 rest

/-- One firing by the host: the state the host object has at that time, and the `this` and
arguments the callbacks are invoked with. -/
structure Firing where
  charging : Bool
  chargingTime : Int
  dischargingTime : Int
  level : Float64
  this : Value
  args : List Value
deriving DecidableEq, Repr

/-- The host brings the object at `ref` into the state of a firing; its listeners stay. -/
def hostUpdate (w : World) (ref : Nat) (f : Firing) : World :=
  let props : List (String × Value) :=
    [("charging", .boolean f.charging),
     ("chargingTime", .number (.ofInt f.chargingTime)),
     ("dischargingTime", .number (.ofInt f.dischargingTime)),
     ("level", .number f.level)]
  { w with heap := w.heap.set ref ⟨props, (w.heap.getD ref default).listeners⟩ }

/-- The host fires a sequence of events of type `type` at object `ref`, each after bringing the
object into the state of that firing. -/
def fireEach (w : World) (ref : Nat) (type : String) : List Firing → Except ValueError World
  | [] => .ok w
  | f :: rest => do
    let w1 ← fire (hostUpdate w ref f) ref type f.this f.args
    fireEach w1 ref type rest

/-- The snapshot a callback of event name `name` extracts at a firing. -/
def Firing.snapshot (name : EventName) (f : Firing) : Data :=
  { EventName := name, This := f.this, Charging := f.charging,
    ChargingTime := normalize f.chargingTime, DischargingTime := normalize f.dischargingTime,
    Level := f.level }

/-- The bridge with the handle field of kind `k` set to `v` and the other three as they were. -/
def Battery.setHandle (e : Battery) (k : Kind) (v : Option Func) : Battery :=
  match k with
  | .chargingChange => { e with fnChargingChange := v }
  | .chargingTimeChange => { e with fnChargingTimeChange := v }
  | .dischargingTimeChange => { e with fnDischargingTimeChange := v }
  | .levelChange => { e with fnLevelChange := v }

/-- The host state of the end-to-end scenario: one battery object with `charging=true`,
`chargingTime=-5`, `dischargingTime=3600`, `level=0.42` (the `float64` nearest to 0.42 is
`7566047373982433 * 2 ^ (-54)`) and no listener, already acquired. -/
def sampleWorld : World :=
  { objectBactery := .object 0,
    heap := [⟨[("charging", .boolean true), ("chargingTime", .number (.ofInt (-5))),
               ("dischargingTime", .number (.ofInt 3600)),
               ("level", .number (.finite 7566047373982433 (-54)))], []⟩],
    nextFuncID := 0, sent := [], calls := [] }

/-- The end-to-end scenario after `AddListenerChargingChange` on channel `1`: the callback with
identity `0` is registered under `"chargingchange"`. -/
def sampleListening : World :=
  { objectBactery := .object 0,
    heap := [⟨[("charging", .boolean true), ("chargingTime", .number (.ofInt (-5))),
               ("dischargingTime", .number (.ofInt 3600)),
               ("level", .number (.finite 7566047373982433 (-54)))],
              [("chargingchange", ⟨0, ⟨KEventChargingChange, 1⟩⟩)]⟩],
    nextFuncID := 1, sent := [],
    calls := [⟨"addEventListener", "chargingchange", ⟨0, ⟨KEventChargingChange, 1⟩⟩⟩] }

/-- The callbacks registered at host object `ref` under `type` in world `w1` that were created
after world `w0` (their identity is not below the counter of `w0`): when only one bridge has
been calling `js.FuncOf` since `w0`, these are the callbacks that bridge has registered. -/
def bridgeCallbacks (w0 w1 : World) (ref : Nat) (type : String) : List Func :=
  (listenersFor w1 ref type).filter (fun f => w0.nextFuncID ≤ f.id)

/-- What stays true of a bridge and its world while the bridge is the only one registering,
starting from world `w0`: acquisition stays completed, every callback at the host object and every
stored handle was created before the current counter, the stored handles were created after `w0`,
and under each kind the host has what it had in `w0` followed by the stored handle, if any. -/
def Inv (w0 : World) (ref : Nat) (s : Battery × World) : Prop :=
  Ready s.2 ref ∧
  w0.nextFuncID ≤ s.2.nextFuncID ∧
  (∀ l ∈ (s.2.heap.getD ref default).listeners, l.2.id < s.2.nextFuncID) ∧
  (∀ k fn, s.1.handle k = some fn → w0.nextFuncID ≤ fn.id) ∧
  (∀ k : Kind, listenersFor s.2 ref k.name = listenersFor w0 ref k.name ++ (s.1.handle k).toList)

/-- Two firings: one in the state of the end-to-end scenario, then one after the host has changed
the state to `charging=false, chargingTime=120, dischargingTime=-1, level=0.5`. -/
def sampleFirings : List Firing :=
  [⟨true, -5, 3600, .finite 7566047373982433 (-54), .object 0, [.null]⟩,
   ⟨false, 120, -1, .finite 1 (-1), .object 0, [.null]⟩]

/-- The end-to-end scenario with a host object that lacks the `level` field. -/
def sampleNoLevel : World :=
  { objectBactery := .object 0,
    heap := [⟨[("charging", .boolean true), ("chargingTime", .number (.ofInt (-5))),
               ("dischargingTime", .number (.ofInt 3600))], []⟩],
    nextFuncID := 0, sent := [], calls := [] }

/-- The end-to-end scenario with a host object whose `charging` field is present but holds
`undefined`. -/
def sampleUndefinedCharging : World :=
  { objectBactery := .object 0,
    heap := [⟨[("charging", .undefined), ("chargingTime", .number (.ofInt (-5))),
               ("dischargingTime", .number (.ofInt 3600)),
               ("level", .number (.finite 7566047373982433 (-54)))], []⟩],
    nextFuncID := 0, sent := [], calls := [] }

/-! ## Facts about the getters -/

theorem toInt_ofInt (v : Int) (hmin : minInt ≤ v) (hmax : v ≤ maxInt) :
    (Float64.ofInt v).toInt = v := by
  have h1 : ¬ v < minInt := Int.not_lt.mpr hmin
  have h2 : ¬ maxInt < v := Int.not_lt.mpr hmax
  simp [Float64.ofInt, Float64.toInt, h1, h2]

theorem getIsCharging_of_field (h : Heap) (ref : Nat) (v : Value)
    (hv : (h.getD ref default).props.lookup "charging" = some v) :
    Event.GetIsCharging h ⟨.object ref⟩ = v.Bool := by
  simp only [Event.GetIsCharging, Value.Get, hv, bind, Except.bind, Option.getD_some]

theorem getChargingTime_of_field (h : Heap) (ref : Nat) (x : Float64)
    (hv : (h.getD ref default).props.lookup "chargingTime" = some (.number x)) :
    Event.GetChargingTime h ⟨.object ref⟩ = .ok (normalize x.toInt) := by
  simp only [Event.GetChargingTime, Value.Get, hv, bind, Except.bind, Option.getD_some, Value.Int,
    normalize, pure, Except.pure]
  split <;> rfl

theorem getDischargingTime_of_field (h : Heap) (ref : Nat) (x : Float64)
    (hv : (h.getD ref default).props.lookup "dischargingTime" = some (.number x)) :
    Event.GetDischargingTime h ⟨.object ref⟩ = .ok (normalize x.toInt) := by
  simp only [Event.GetDischargingTime, Value.Get, hv, bind, Except.bind, Option.getD_some,
    Value.Int, normalize, pure, Except.pure]
  split <;> rfl

theorem getLevel_of_field (h : Heap) (ref : Nat) (v : Value)
    (hv : (h.getD ref default).props.lookup "level" = some v) :
    Event.GetLevel h ⟨.object ref⟩ = v.Float := by
  simp only [Event.GetLevel, Value.Get, hv, bind, Except.bind, Option.getD_some]

/-- With the four fields present and of the JavaScript types the getters read, `EventManager`
returns the snapshot of those fields. -/
theorem eventManager_of_fields (w : World) (ref : Nat) (c : Bool) (x y l : Float64)
    (name : EventName) (this : Value) (args : List Value)
    (hobj : w.objectBactery = .object ref)
    (hc : (w.heap.getD ref default).props.lookup "charging" = some (.boolean c))
    (ht : (w.heap.getD ref default).props.lookup "chargingTime" = some (.number x))
    (hd : (w.heap.getD ref default).props.lookup "dischargingTime" = some (.number y))
    (hl : (w.heap.getD ref default).props.lookup "level" = some (.number l)) :
    EventManager w name this args =
      .ok ⟨name, this, c, normalize x.toInt, normalize y.toInt, l⟩ := by
  simp only [EventManager, hobj, getIsCharging_of_field _ _ _ hc,
    getChargingTime_of_field _ _ _ ht, getDischargingTime_of_field _ _ _ hd,
    getLevel_of_field _ _ _ hl, Value.Bool, Value.Float, bind, Except.bind, pure, Except.pure]

/-- With the four fields present and of the JavaScript types the getters read, `Now` returns the
snapshot of those fields. -/
theorem now_of_fields (e : Battery) (w : World) (ref : Nat) (c : Bool) (x y l : Float64)
    (hobj : w.objectBactery = .object ref)
    (hc : (w.heap.getD ref default).props.lookup "charging" = some (.boolean c))
    (ht : (w.heap.getD ref default).props.lookup "chargingTime" = some (.number x))
    (hd : (w.heap.getD ref default).props.lookup "dischargingTime" = some (.number y))
    (hl : (w.heap.getD ref default).props.lookup "level" = some (.number l)) :
    e.Now w = .ok ⟨"battery now", .undefined, c, normalize x.toInt, normalize y.toInt, l⟩ := by
  simp only [Battery.Now, hobj, getIsCharging_of_field _ _ _ hc,
    getChargingTime_of_field _ _ _ ht, getDischargingTime_of_field _ _ _ hd,
    getLevel_of_field _ _ _ hl, Value.Bool, Value.Float, bind, Except.bind, pure, Except.pure]
  rfl

/-- For an acquired host object in state `(c, t, d, l)`, `EventManager` returns the normalized
snapshot. -/
theorem eventManager_of_state (w : World) (ref : Nat) (c : Bool) (t d : Int) (l : Float64)
    (name : EventName) (this : Value) (args : List Value)
    (hobj : w.objectBactery = .object ref) (hs : HasState w.heap ref c t d l) :
    EventManager w name this args = .ok ⟨name, this, c, normalize t, normalize d, l⟩ := by
  obtain ⟨hc, ht, hd, hl, h1, h2, h3, h4⟩ := hs
  rw [eventManager_of_fields w ref c _ _ l name this args hobj hc ht hd hl,
    toInt_ofInt t h1 h2, toInt_ofInt d h3 h4]

/-! ## The claims about extraction -/

/-- C1: for every integer raw value `v` (one a Go `int` holds) that the host reports for
`chargingTime`, `Event.GetChargingTime` returns `-1` when `v < 0` and `v` itself when `v ≥ 0`;
likewise `Event.GetDischargingTime` for `dischargingTime`. -/
theorem C1_duration_getters_normalize (h : Heap) (ref : Nat) (v : Int)
    (hmin : minInt ≤ v) (hmax : v ≤ maxInt) :
    ((h.getD ref default).props.lookup "chargingTime" = some (.number (.ofInt v)) →
      Event.GetChargingTime h ⟨.object ref⟩ = .ok (if v < 0 then -1 else v)) ∧
    ((h.getD ref default).props.lookup "dischargingTime" = some (.number (.ofInt v)) →
      Event.GetDischargingTime h ⟨.object ref⟩ = .ok (if v < 0 then -1 else v)) := by
  constructor
  · intro hv
    rw [getChargingTime_of_field h ref _ hv, toInt_ofInt v hmin hmax]; rfl
  · intro hv
    rw [getDischargingTime_of_field h ref _ hv, toInt_ofInt v hmin hmax]; rfl

/-- C1 at a host object reporting `-5` for both durations: both getters return `-1`. -/
theorem C1_duration_getters_normalize_witness :
    Event.GetChargingTime
        [⟨[("chargingTime", .number (.ofInt (-5))), ("dischargingTime", .number (.ofInt (-5)))],
          []⟩] ⟨.object 0⟩ = .ok (-1) ∧
    Event.GetDischargingTime
        [⟨[("chargingTime", .number (.ofInt (-5))), ("dischargingTime", .number (.ofInt (-5)))],
          []⟩] ⟨.object 0⟩ = .ok (-1) :=
  ⟨((C1_duration_getters_normalize _ 0 (-5) (by decide) (by decide)).1 (by decide)).trans
     (by decide),
   ((C1_duration_getters_normalize _ 0 (-5) (by decide) (by decide)).2 (by decide)).trans
     (by decide)⟩

/-- C2: for every acquired host object in state `(c, t, d, l)`, `Battery.Now` returns the
snapshot whose event name is the query name `"battery now"` (none of the four event name
constants), whose `This` is the zero `js.Value`, and whose fields are `c`, `t` and `d` normalized
to `-1` when negative, and `l` as it is. -/
theorem C2_now_snapshot (e : Battery) (w : World) (ref : Nat) (c : Bool) (t d : Int)
    (l : Float64) (hobj : w.objectBactery = .object ref) (hs : HasState w.heap ref c t d l) :
    e.Now w = .ok { EventName := "battery now", This := default, Charging := c,
                    ChargingTime := if t < 0 then -1 else t,
                    DischargingTime := if d < 0 then -1 else d, Level := l } ∧
    ∀ k : Kind, "battery now" ≠ k.name := by
  obtain ⟨hc, ht, hd, hl, h1, h2, h3, h4⟩ := hs
  refine ⟨?_, ?_⟩
  · rw [now_of_fields e w ref c _ _ l hobj hc ht hd hl, toInt_ofInt t h1 h2, toInt_ofInt d h3 h4]
    rfl
  · intro k; cases k <;> decide

/-- C2 at the host state `charging=true, chargingTime=-5, dischargingTime=3600, level=0.42`
(the `float64` nearest to 0.42 is `7566047373982433 * 2 ^ (-54)`): `Now` yields
`{true, -1, 3600, 0.42}`. -/
theorem C2_now_snapshot_witness :
    Battery.Now Battery.empty
      { objectBactery := .object 0,
        heap := [⟨[("charging", .boolean true), ("chargingTime", .number (.ofInt (-5))),
                   ("dischargingTime", .number (.ofInt 3600)),
                   ("level", .number (.finite 7566047373982433 (-54)))], []⟩],
        nextFuncID := 0, sent := [], calls := [] } =
      .ok { EventName := "battery now", This := .undefined, Charging := true,
            ChargingTime := -1, DischargingTime := 3600,
            Level := .finite 7566047373982433 (-54) } :=
  ((C2_now_snapshot Battery.empty _ 0 true (-5) 3600 (.finite 7566047373982433 (-54))
    (by decide) (by decide)).1).trans (by decide)


/-! ## Facts about registration and firing -/

theorem getD_set_self (h : Heap) (ref : Nat) (o : HostObject) (hlt : ref < h.length) :
    (h.set ref o).getD ref default = o := by
  simp [List.getD_eq_getElem?_getD, List.getElem?_set, hlt]

theorem kind_name_injective (k k2 : Kind) (h : k.name = k2.name) : k = k2 := by
  cases k <;> cases k2 <;> first | rfl | (exact absurd h (by decide))

theorem handle_setHandle (e : Battery) (k k2 : Kind) (v : Option Func) :
    (e.setHandle k v).handle k2 = if k2 = k then v else e.handle k2 := by
  cases k <;> cases k2 <;> rfl

theorem addListener_noop (k : Kind) (e : Battery) (ch : Chan) (w : World) (fn : Func)
    (h : e.handle k = some fn) : e.addListener k ch w = .ok (e, w) := by
  cases k <;>
    simp_all [Battery.addListener, Battery.handle, Battery.AddListenerChargingChange,
      Battery.AddListenerChargingTimeChange, Battery.AddListenerDischargingTimeChange,
      Battery.AddListenerLevelChange]

theorem removeListener_noop (k : Kind) (e : Battery) (w : World)
    (h : e.handle k = none) : e.removeListener k w = .ok (e, w) := by
  cases k <;>
    simp_all [Battery.removeListener, Battery.handle, Battery.RemoveListenerChargingChange,
      Battery.RemoveListenerChargingTimeChange, Battery.RemoveListenerDischargingTimeChange,
      Battery.RemoveListenerLevelChange]

theorem addListener_ready (k : Kind) (e : Battery) (ch : Chan) (w : World) (ref : Nat)
    (hready : Ready w ref) (h : e.handle k = none) :
    e.addListener k ch w = .ok (e.setHandle k (some ⟨w.nextFuncID, ⟨k.name, ch⟩⟩),
      { objectBactery := w.objectBactery,
        heap := w.heap.set ref
          ((w.heap.getD ref default).addEventListener k.name ⟨w.nextFuncID, ⟨k.name, ch⟩⟩),
        nextFuncID := w.nextFuncID + 1,
        sent := w.sent,
        calls := w.calls ++ [⟨"addEventListener", k.name, ⟨w.nextFuncID, ⟨k.name, ch⟩⟩⟩] }) := by
  obtain ⟨hobj, _⟩ := hready
  cases k <;>
    simp_all [Battery.addListener, Battery.handle, Battery.AddListenerChargingChange,
      Battery.AddListenerChargingTimeChange, Battery.AddListenerDischargingTimeChange,
      Battery.AddListenerLevelChange, FuncOf, Value.Call, Battery.setHandle, Kind.name,
      KEventChargingChange, KEventChargingTimeChange, KEventDischargingTimeChange,
      KEventLevelChange, bind, Except.bind, pure, Except.pure]

theorem removeListener_ready (k : Kind) (e : Battery) (w : World) (ref : Nat) (fn : Func)
    (hready : Ready w ref) (h : e.handle k = some fn) :
    e.removeListener k w = .ok (e.setHandle k none,
      { objectBactery := w.objectBactery,
        heap := w.heap.set ref ((w.heap.getD ref default).removeEventListener k.name fn),
        nextFuncID := w.nextFuncID,
        sent := w.sent,
        calls := w.calls ++ [⟨"removeEventListener", k.name, fn⟩] }) := by
  obtain ⟨hobj, _⟩ := hready
  cases k <;>
    simp_all [Battery.removeListener, Battery.handle, Battery.RemoveListenerChargingChange,
      Battery.RemoveListenerChargingTimeChange, Battery.RemoveListenerDischargingTimeChange,
      Battery.RemoveListenerLevelChange, Value.Call, Battery.setHandle, Kind.name,
      KEventChargingChange, KEventChargingTimeChange, KEventDischargingTimeChange,
      KEventLevelChange, bind, Except.bind, pure, Except.pure]


theorem listeners_addEventListener (o : HostObject) (type type2 : String) (fn : Func)
    (hfresh : ∀ l ∈ o.listeners, l.1 = type → l.2.id ≠ fn.id) :
    ((o.addEventListener type fn).listeners.filter (fun l => l.1 = type2)).map (fun l => l.2) =
      (o.listeners.filter (fun l => l.1 = type2)).map (fun l => l.2) ++
        (if type2 = type then [fn] else []) := by
  have hany : o.listeners.any (fun l => l.1 = type ∧ l.2.id = fn.id) = false := by
    rw [List.any_eq_false]
    intro l hl
    simp only [decide_eq_true_eq, not_and]
    exact hfresh l hl
  unfold HostObject.addEventListener
  rw [hany]
  by_cases h : type2 = type
  · subst h; simp [List.filter_append]
  · have h2 : ¬ type = type2 := fun h3 => h h3.symm
    simp [List.filter_append, h, h2]

theorem listeners_removeEventListener (o : HostObject) (type type2 : String) (fn : Func) :
    ((o.removeEventListener type fn).listeners.filter (fun l => l.1 = type2)).map
        (fun l => l.2) =
      if type2 = type then
        ((o.listeners.filter (fun l => l.1 = type2)).map (fun l => l.2)).filter
          (fun f => f.id ≠ fn.id)
      else (o.listeners.filter (fun l => l.1 = type2)).map (fun l => l.2) := by
  unfold HostObject.removeEventListener
  by_cases h : type2 = type
  · subst h
    simp only [if_true, List.filter_filter, List.filter_map]
    congr 1
    apply List.filter_congr
    intro l _
    by_cases h1 : l.1 = type2 <;> by_cases h2 : l.2.id = fn.id <;> simp [h1, h2]
  · simp only [h, if_false, List.filter_filter]
    congr 1
    apply List.filter_congr
    intro l _
    by_cases h1 : l.1 = type2
    · have : ¬ l.1 = type := fun h3 => h (h1.symm.trans h3)
      simp [this, h1, h]
    · simp [h1]

theorem props_addEventListener (o : HostObject) (type : String) (fn : Func) :
    (o.addEventListener type fn).props = o.props := by
  unfold HostObject.addEventListener; split <;> rfl

theorem invoke_no_args (f : GoFunc) (w : World) (this : Value) :
    f.invoke w this [] = .ok w := by
  simp [GoFunc.invoke]

theorem invokeAll_no_args (fs : List Func) (w : World) (this : Value) :
    invokeAll w fs this [] = .ok w := by
  induction fs with
  | nil => rfl
  | cons f rest ih => simp [invokeAll, invoke_no_args, bind, Except.bind, ih]

theorem invoke_of_state (f : GoFunc) (w : World) (ref : Nat) (c : Bool) (t d : Int)
    (l : Float64) (this a : Value) (args : List Value)
    (hobj : w.objectBactery = .object ref) (hs : HasState w.heap ref c t d l) :
    f.invoke w this (a :: args) =
      .ok { w with sent := w.sent ++
        [(f.batteryData, ⟨f.name, this, c, normalize t, normalize d, l⟩)] } := by
  simp [GoFunc.invoke, eventManager_of_state w ref c t d l f.name this (a :: args) hobj hs,
    bind, Except.bind, pure, Except.pure]

theorem hasState_set (h : Heap) (ref : Nat) (o : HostObject) (c : Bool) (t d : Int)
    (l : Float64) (hlt : ref < h.length) (hp : o.props = (h.getD ref default).props)
    (hs : HasState h ref c t d l) : HasState (h.set ref o) ref c t d l := by
  unfold HasState at *
  rw [getD_set_self h ref o hlt, hp]
  exact hs

theorem received_append (w : World) (ch ch2 : Chan) (d : Data) :
    received { w with sent := w.sent ++ [(ch, d)] } ch2 =
      received w ch2 ++ (if ch = ch2 then [d] else []) := by
  by_cases h : ch = ch2 <;> simp [received, List.filter_append, h]


theorem listenersFor_set (ob : Value) (h : Heap) (n : Nat) (s : List (Chan × Data))
    (cs : List HostCall) (ref : Nat) (o : HostObject) (type : String) (hlt : ref < h.length) :
    listenersFor ⟨ob, h.set ref o, n, s, cs⟩ ref type =
      (o.listeners.filter (fun l => l.1 = type)).map (fun l => l.2) := by
  unfold listenersFor
  simp only []
  rw [getD_set_self h ref o hlt]

theorem no_listener_of_listenersFor_nil (w : World) (ref : Nat) (type : String)
    (hfree : listenersFor w ref type = []) :
    ∀ l ∈ (w.heap.getD ref default).listeners, l.1 = type → False := by
  intro l hl ht
  have hmem : l.2 ∈ listenersFor w ref type := by
    unfold listenersFor
    exact List.mem_map.mpr ⟨l, List.mem_filter.mpr ⟨hl, by simpa using ht⟩, rfl⟩
  rw [hfree] at hmem
  cases hmem

theorem fire_single (w : World) (ref : Nat) (type : String) (fn : Func) (c : Bool) (t d : Int)
    (l : Float64) (this a : Value) (args : List Value)
    (hobj : w.objectBactery = .object ref) (hs : HasState w.heap ref c t d l)
    (hl : listenersFor w ref type = [fn]) :
    fire w ref type this (a :: args) =
      .ok { w with sent := w.sent ++
        [(fn.fn.batteryData, ⟨fn.fn.name, this, c, normalize t, normalize d, l⟩)] } := by
  unfold fire
  rw [hl]
  simp [invokeAll, invoke_of_state fn.fn w ref c t d l this a args hobj hs, bind, Except.bind]

theorem fire_none (w : World) (ref : Nat) (type : String) (this : Value) (args : List Value)
    (hl : listenersFor w ref type = []) : fire w ref type this args = .ok w := by
  unfold fire
  rw [hl]
  rfl

/-- On a ready bridge without a handle for `k`, with no callback under `k` at the host object,
`addListener k ch` stores the callback `js.FuncOf` creates and registers it, and a firing with at
least one argument then sends one snapshot on `ch`. -/
theorem add_then_fire (k : Kind) (e : Battery) (w : World) (ref : Nat) (ch : Chan) (c : Bool)
    (t d : Int) (l : Float64) (this a : Value) (args : List Value)
    (hready : Ready w ref) (hnone : e.handle k = none)
    (hfree : listenersFor w ref k.name = []) (hs : HasState w.heap ref c t d l) :
    ∃ (e1 : Battery) (w1 w2 : World),
      e.addListener k ch w = .ok (e1, w1) ∧
      e1.handle k = some ⟨w.nextFuncID, ⟨k.name, ch⟩⟩ ∧
      listenersFor w1 ref k.name = [⟨w.nextFuncID, ⟨k.name, ch⟩⟩] ∧
      w1.calls = w.calls ++ [⟨"addEventListener", k.name, ⟨w.nextFuncID, ⟨k.name, ch⟩⟩⟩] ∧
      fire w1 ref k.name this (a :: args) = .ok w2 ∧
      w2.sent = w.sent ++ [(ch, ⟨k.name, this, c, normalize t, normalize d, l⟩)] := by
  have hlt : ref < w.heap.length := hready.2
  have hadd := addListener_ready k e ch w ref hready hnone
  have hfresh : ∀ x ∈ (w.heap.getD ref default).listeners,
      x.1 = k.name → x.2.id ≠ (⟨w.nextFuncID, ⟨k.name, ch⟩⟩ : Func).id :=
    fun x hx ht => (no_listener_of_listenersFor_nil w ref k.name hfree x hx ht).elim
  have hh : (e.setHandle k (some ⟨w.nextFuncID, ⟨k.name, ch⟩⟩)).handle k =
      some ⟨w.nextFuncID, ⟨k.name, ch⟩⟩ := by
    rw [handle_setHandle]; simp
  have hls := listenersFor_set w.objectBactery w.heap (w.nextFuncID + 1) w.sent
    (w.calls ++ [⟨"addEventListener", k.name, ⟨w.nextFuncID, ⟨k.name, ch⟩⟩⟩]) ref
    ((w.heap.getD ref default).addEventListener k.name ⟨w.nextFuncID, ⟨k.name, ch⟩⟩) k.name hlt
  rw [listeners_addEventListener _ k.name k.name _ hfresh] at hls
  have hfree2 : ((w.heap.getD ref default).listeners.filter (fun l => l.1 = k.name)).map
      (fun l => l.2) = [] := hfree
  rw [hfree2] at hls
  simp only [if_true, List.nil_append] at hls
  have hs1 := hasState_set w.heap ref
    ((w.heap.getD ref default).addEventListener k.name ⟨w.nextFuncID, ⟨k.name, ch⟩⟩)
    c t d l hlt (props_addEventListener _ _ _) hs
  exact ⟨_, _, _, hadd, hh, hls, rfl,
    fire_single _ ref k.name _ c t d l this a args hready.1 hs1 hls, rfl⟩

/-! ## The claims about the listener registry -/

/-- C3: on a ready bridge with no handle for kind `k`, whose host object has no callback under
`k` yet, `addListener k ch1` followed by `addListener k ch2` registers exactly one host callback:
the first call stores a handle and makes one `addEventListener` call, the second call returns the
bridge and the world as they were (same handle, same listener list, no host call), and firing the
event once with at least one argument sends exactly one snapshot, on `ch1`, and none on a
different `ch2`. -/
theorem C3_second_add_registers_nothing (k : Kind) (e : Battery) (w : World) (ref : Nat)
    (ch1 ch2 : Chan) (c : Bool) (t d : Int) (l : Float64) (this a : Value) (args : List Value)
    (hready : Ready w ref) (hnone : e.handle k = none)
    (hfree : listenersFor w ref k.name = []) (hs : HasState w.heap ref c t d l) :
    ∃ (e1 : Battery) (w1 w2 : World) (fn : Func),
      e.addListener k ch1 w = .ok (e1, w1) ∧
      e1.addListener k ch2 w1 = .ok (e1, w1) ∧
      e1.handle k = some fn ∧
      listenersFor w1 ref k.name = [fn] ∧
      w1.calls = w.calls ++ [⟨"addEventListener", k.name, fn⟩] ∧
      fire w1 ref k.name this (a :: args) = .ok w2 ∧
      w2.sent = w.sent ++ [(ch1, ⟨k.name, this, c, normalize t, normalize d, l⟩)] ∧
      received w2 ch1 =
        received w ch1 ++ [⟨k.name, this, c, normalize t, normalize d, l⟩] ∧
      (ch2 ≠ ch1 → received w2 ch2 = received w ch2) := by
  obtain ⟨e1, w1, w2, h1, h2, h3, h4, h5, h6⟩ :=
    add_then_fire k e w ref ch1 c t d l this a args hready hnone hfree hs
  refine ⟨e1, w1, w2, _, h1, addListener_noop k e1 ch2 w1 _ h2, h2, h3, h4, h5, h6, ?_, ?_⟩
  · simp [received, h6, List.filter_append]
  · intro hne
    have : ¬ ch1 = ch2 := fun h => hne h.symm
    simp [received, h6, List.filter_append, this]

/-- C3 in the end-to-end scenario, kind level-change, channels `1` and `2`. -/
theorem C3_second_add_registers_nothing_witness :
    ∃ (e1 : Battery) (w1 w2 : World) (fn : Func),
      Battery.empty.addListener .levelChange 1 sampleWorld = .ok (e1, w1) ∧
      e1.addListener .levelChange 2 w1 = .ok (e1, w1) ∧
      e1.handle .levelChange = some fn ∧
      listenersFor w1 0 Kind.levelChange.name = [fn] ∧
      w1.calls = sampleWorld.calls ++ [⟨"addEventListener", Kind.levelChange.name, fn⟩] ∧
      fire w1 0 Kind.levelChange.name (.object 0) (Value.null :: []) = .ok w2 ∧
      w2.sent = sampleWorld.sent ++
        [(1, ⟨Kind.levelChange.name, .object 0, true, normalize (-5), normalize 3600,
              .finite 7566047373982433 (-54)⟩)] ∧
      received w2 1 = received sampleWorld 1 ++
        [⟨Kind.levelChange.name, .object 0, true, normalize (-5), normalize 3600,
          .finite 7566047373982433 (-54)⟩] ∧
      ((2 : Chan) ≠ 1 → received w2 2 = received sampleWorld 2) :=
  C3_second_add_registers_nothing .levelChange Battery.empty sampleWorld 0 1 2 true (-5) 3600
    (.finite 7566047373982433 (-54)) (.object 0) .null [] (by decide) (by decide) (by decide)
    (by decide)

/-- C4: when no handle is stored for kind `k`, `removeListener k` returns the same bridge (all four
handles as they were) and the same world: the host's listener lists and the record of host calls
are unchanged, so no `removeEventListener` is issued. -/
theorem C4_remove_without_handle_is_noop (k : Kind) (e : Battery) (w : World)
    (h : e.handle k = none) :
    e.removeListener k w = .ok (e, w) :=
  removeListener_noop k e w h

/-- C4 on the empty bridge in the end-to-end scenario. -/
theorem C4_remove_without_handle_is_noop_witness :
    Battery.empty.removeListener .chargingChange sampleWorld = .ok (Battery.empty, sampleWorld) :=
  C4_remove_without_handle_is_noop .chargingChange Battery.empty sampleWorld (by decide)

/-- C5: on a ready bridge whose stored handle `fn` for kind `k` is the callback the host has
under `k`, `removeListener k` issues `removeEventListener` for exactly `fn`, clears the handle of
`k` and leaves the other three; afterwards nothing is registered under `k`, so a firing delivers
no snapshot; a following `addListener k ch2` registers a callback with a new identity, and a
firing then delivers one snapshot, on `ch2`. -/
theorem C5_remove_then_add_again (k : Kind) (e : Battery) (w : World) (ref : Nat) (fn : Func)
    (ch2 : Chan) (c : Bool) (t d : Int) (l : Float64) (this a : Value) (args : List Value)
    (hready : Ready w ref) (hh : e.handle k = some fn) (hid : fn.id < w.nextFuncID)
    (hl : listenersFor w ref k.name = [fn]) (hs : HasState w.heap ref c t d l) :
    ∃ (e1 e2 : Battery) (w1 w2 w3 : World) (fn2 : Func),
      e.removeListener k w = .ok (e1, w1) ∧
      (∀ k2, e1.handle k2 = if k2 = k then none else e.handle k2) ∧
      w1.calls = w.calls ++ [⟨"removeEventListener", k.name, fn⟩] ∧
      listenersFor w1 ref k.name = [] ∧
      fire w1 ref k.name this (a :: args) = .ok w1 ∧
      e1.addListener k ch2 w1 = .ok (e2, w2) ∧
      e2.handle k = some fn2 ∧ fn2.id ≠ fn.id ∧
      listenersFor w2 ref k.name = [fn2] ∧
      fire w2 ref k.name this (a :: args) = .ok w3 ∧
      w3.sent = w.sent ++ [(ch2, ⟨k.name, this, c, normalize t, normalize d, l⟩)] := by
  have hlt : ref < w.heap.length := hready.2
  have hrem := removeListener_ready k e w ref fn hready hh
  have hls := listenersFor_set w.objectBactery w.heap w.nextFuncID w.sent
    (w.calls ++ [⟨"removeEventListener", k.name, fn⟩]) ref
    ((w.heap.getD ref default).removeEventListener k.name fn) k.name hlt
  rw [listeners_removeEventListener] at hls
  have hl2 : ((w.heap.getD ref default).listeners.filter (fun l => l.1 = k.name)).map
      (fun l => l.2) = [fn] := hl
  rw [hl2] at hls
  simp only [if_true, ne_eq, List.filter_cons, not_true_eq_false, decide_False,
    List.filter_nil] at hls
  have hready1 : Ready (⟨w.objectBactery,
      w.heap.set ref ((w.heap.getD ref default).removeEventListener k.name fn), w.nextFuncID,
      w.sent, w.calls ++ [⟨"removeEventListener", k.name, fn⟩]⟩ : World) ref :=
    ⟨hready.1, by simpa using hlt⟩
  have hs1 := hasState_set w.heap ref
    ((w.heap.getD ref default).removeEventListener k.name fn) c t d l hlt rfl hs
  have hnone : (e.setHandle k none).handle k = none := by
    rw [handle_setHandle]; simp
  obtain ⟨e2, w2, w3, h1, h2, h3, _, h5, h6⟩ :=
    add_then_fire k (e.setHandle k none) _ ref ch2 c t d l this a args hready1 hnone hls hs1
  exact ⟨_, e2, _, w2, w3, _, hrem, fun k2 => handle_setHandle e k k2 none, rfl, hls,
    fire_none _ ref k.name this _ hls, h1, h2, Nat.ne_of_gt hid, h3, h5, h6⟩

/-- C5 in the end-to-end scenario with a charging-change listener on channel `1`: after removal a
firing changes nothing, and a new listener on channel `2` gets the next snapshot. -/
theorem C5_remove_then_add_again_witness :
    ∃ (e1 e2 : Battery) (w1 w2 w3 : World) (fn2 : Func),
      (⟨some ⟨0, ⟨KEventChargingChange, 1⟩⟩, none, none, none⟩ : Battery).removeListener
        .chargingChange sampleListening = .ok (e1, w1) ∧
      (∀ k2, e1.handle k2 = if k2 = .chargingChange then none else
        (⟨some ⟨0, ⟨KEventChargingChange, 1⟩⟩, none, none, none⟩ : Battery).handle k2) ∧
      w1.calls = sampleListening.calls ++
        [⟨"removeEventListener", Kind.chargingChange.name, ⟨0, ⟨KEventChargingChange, 1⟩⟩⟩] ∧
      listenersFor w1 0 Kind.chargingChange.name = [] ∧
      fire w1 0 Kind.chargingChange.name (.object 0) (Value.null :: []) = .ok w1 ∧
      e1.addListener .chargingChange 2 w1 = .ok (e2, w2) ∧
      e2.handle .chargingChange = some fn2 ∧
      fn2.id ≠ (⟨0, ⟨KEventChargingChange, 1⟩⟩ : Func).id ∧
      listenersFor w2 0 Kind.chargingChange.name = [fn2] ∧
      fire w2 0 Kind.chargingChange.name (.object 0) (Value.null :: []) = .ok w3 ∧
      w3.sent = sampleListening.sent ++
        [(2, ⟨Kind.chargingChange.name, .object 0, true, normalize (-5), normalize 3600,
              .finite 7566047373982433 (-54)⟩)] :=
  C5_remove_then_add_again .chargingChange ⟨some ⟨0, ⟨KEventChargingChange, 1⟩⟩, none, none, none⟩
    sampleListening 0 ⟨0, ⟨KEventChargingChange, 1⟩⟩ 2 true (-5) 3600
    (.finite 7566047373982433 (-54)) (.object 0) .null [] (by decide) (by decide) (by decide)
    (by decide) (by decide)

/-- C6: on a ready bridge without a handle for kind `k`, the callback `addListener k ch` installs
does nothing when it is invoked with an empty argument list, in whatever world it is invoked: it
returns normally and the world, with the sends on every channel, is as before; so a host firing
of `k` with no arguments leaves the world as it was. -/
theorem C6_no_arguments_no_send (k : Kind) (e : Battery) (ch : Chan) (w : World) (ref : Nat)
    (hready : Ready w ref) (hnone : e.handle k = none) :
    ∃ (e1 : Battery) (w1 : World) (fn : Func),
      e.addListener k ch w = .ok (e1, w1) ∧
      e1.handle k = some fn ∧
      (∀ (w2 : World) (this : Value), fn.fn.invoke w2 this [] = .ok w2) ∧
      (∀ this : Value, fire w1 ref k.name this [] = .ok w1) := by
  refine ⟨_, _, ⟨w.nextFuncID, ⟨k.name, ch⟩⟩, addListener_ready k e ch w ref hready hnone, ?_,
    fun w2 this => invoke_no_args _ w2 this, fun this => invokeAll_no_args _ _ this⟩
  rw [handle_setHandle]; simp

/-- C6 in the end-to-end scenario: register a level-change listener, fire with no arguments. -/
theorem C6_no_arguments_no_send_witness :
    ∃ (e1 : Battery) (w1 : World) (fn : Func),
      Battery.empty.addListener .levelChange 1 sampleWorld = .ok (e1, w1) ∧
      e1.handle .levelChange = some fn ∧
      (∀ (w2 : World) (this : Value), fn.fn.invoke w2 this [] = .ok w2) ∧
      (∀ this : Value, fire w1 0 Kind.levelChange.name this [] = .ok w1) :=
  C6_no_arguments_no_send .levelChange Battery.empty 1 sampleWorld 0 (by decide) (by decide)


theorem listeners_addEventListener_fresh (o : HostObject) (type : String) (fn : Func)
    (hfresh : ∀ l ∈ o.listeners, l.1 = type → l.2.id ≠ fn.id) :
    (o.addEventListener type fn).listeners = o.listeners ++ [(type, fn)] := by
  have hany : o.listeners.any (fun l => l.1 = type ∧ l.2.id = fn.id) = false := by
    rw [List.any_eq_false]
    intro l hl
    simp only [decide_eq_true_eq, not_and]
    exact hfresh l hl
  unfold HostObject.addEventListener
  rw [hany]
  rfl

theorem mem_listenersFor (w : World) (ref : Nat) (type : String) (f : Func)
    (hf : f ∈ listenersFor w ref type) :
    (type, f) ∈ (w.heap.getD ref default).listeners := by
  unfold listenersFor at hf
  obtain ⟨l, hl, rfl⟩ := List.mem_map.mp hf
  obtain ⟨hl1, hl2⟩ := List.mem_filter.mp hl
  have : l.1 = type := by simpa using hl2
  rw [← this]
  exact hl1

theorem inv_step (w0 : World) (ref : Nat) (s : Battery × World) (op : Op)
    (hwf : ∀ l ∈ (w0.heap.getD ref default).listeners, l.2.id < w0.nextFuncID)
    (hinv : Inv w0 ref s) :
    ∃ s1, Battery.step s op = .ok s1 ∧ Inv w0 ref s1 := by
  obtain ⟨e, w⟩ := s
  obtain ⟨hready, hle, hids, hhandles, hlist⟩ := hinv
  have hlt : ref < w.heap.length := hready.2
  cases op with
  | add k ch =>
    cases hh : e.handle k with
    | some fn =>
      exact ⟨(e, w), addListener_noop k e ch w fn hh, hready, hle, hids, hhandles, hlist⟩
    | none =>
      have hfresh : ∀ x ∈ (w.heap.getD ref default).listeners,
          x.1 = k.name → x.2.id ≠ (⟨w.nextFuncID, ⟨k.name, ch⟩⟩ : Func).id :=
        fun x hx _ => Nat.ne_of_lt (hids x hx)
      refine ⟨_, addListener_ready k e ch w ref hready hh, ⟨hready.1, by simpa using hlt⟩,
        Nat.le_succ_of_le hle, ?_, ?_, ?_⟩
      · intro x hx
        simp only [] at hx
        rw [getD_set_self _ _ _ hlt, listeners_addEventListener_fresh _ _ _ hfresh] at hx
        rcases List.mem_append.mp hx with hx1 | hx1
        · exact Nat.lt_succ_of_lt (hids x hx1)
        · simp only [List.mem_singleton] at hx1
          subst hx1
          exact Nat.lt_succ_self _
      · intro k2 fn2 h2
        simp only [] at h2
        rw [handle_setHandle] at h2
        by_cases hk : k2 = k
        · simp only [hk, if_true, Option.some.injEq] at h2
          subst h2
          exact hle
        · simp only [hk, if_false] at h2
          exact hhandles k2 fn2 h2
      · intro k2
        simp only []
        rw [listenersFor_set _ _ _ _ _ _ _ _ hlt,
          listeners_addEventListener _ k.name k2.name _ hfresh, handle_setHandle]
        have hl2 : ((w.heap.getD ref default).listeners.filter (fun l => l.1 = k2.name)).map
            (fun l => l.2) = listenersFor w0 ref k2.name ++ (e.handle k2).toList := hlist k2
        rw [hl2]
        by_cases hk : k2 = k
        · subst hk
          simp [hh]
        · have hn : ¬ k2.name = k.name := fun h => hk (kind_name_injective _ _ h)
          simp [hk, hn]
  | remove k =>
    cases hh : e.handle k with
    | none =>
      exact ⟨(e, w), removeListener_noop k e w hh, hready, hle, hids, hhandles, hlist⟩
    | some fn =>
      refine ⟨_, removeListener_ready k e w ref fn hready hh, ⟨hready.1, by simpa using hlt⟩,
        hle, ?_, ?_, ?_⟩
      · intro x hx
        simp only [] at hx
        rw [getD_set_self _ _ _ hlt] at hx
        exact hids x (List.mem_filter.mp hx).1
      · intro k2 fn2 h2
        simp only [] at h2
        rw [handle_setHandle] at h2
        by_cases hk : k2 = k
        · simp [hk] at h2
        · simp only [hk, if_false] at h2
          exact hhandles k2 fn2 h2
      · intro k2
        simp only []
        rw [listenersFor_set _ _ _ _ _ _ _ _ hlt,
          listeners_removeEventListener _ k.name k2.name fn, handle_setHandle]
        have hl2 : ((w.heap.getD ref default).listeners.filter (fun l => l.1 = k2.name)).map
            (fun l => l.2) = listenersFor w0 ref k2.name ++ (e.handle k2).toList := hlist k2
        rw [hl2]
        by_cases hk : k2 = k
        · subst hk
          have hold : ∀ f ∈ listenersFor w0 ref k2.name, f.id ≠ fn.id := by
            intro f hf
            have h1 := hwf _ (mem_listenersFor w0 ref k2.name f hf)
            have h2 := hhandles k2 fn hh
            exact Nat.ne_of_lt (Nat.lt_of_lt_of_le h1 h2)
          simp only [if_true, hh, Option.toList_some, List.filter_append, Option.toList_none,
            List.append_nil]
          have hf1 : (listenersFor w0 ref k2.name).filter (fun f => f.id ≠ fn.id) =
              listenersFor w0 ref k2.name := by
            rw [List.filter_eq_self]
            intro f hf
            simpa using hold f hf
          rw [hf1]
          simp
        · have hn : ¬ k2.name = k.name := fun h => hk (kind_name_injective _ _ h)
          simp [hk, hn]

theorem inv_run (w0 : World) (ref : Nat) (ops : List Op)
    (hwf : ∀ l ∈ (w0.heap.getD ref default).listeners, l.2.id < w0.nextFuncID) :
    ∀ s, Inv w0 ref s → ∃ s1, Battery.run s ops = .ok s1 ∧ Inv w0 ref s1 := by
  induction ops with
  | nil => exact fun s hs => ⟨s, rfl, hs⟩
  | cons op rest ih =>
    intro s hs
    obtain ⟨s1, h1, hinv1⟩ := inv_step w0 ref s op hwf hs
    obtain ⟨s2, h2, hinv2⟩ := ih s1 hinv1
    exact ⟨s2, by simp [Battery.run, h1, h2, bind, Except.bind], hinv2⟩


theorem inv_initial (w : World) (ref : Nat) (hready : Ready w ref)
    (hwf : ∀ l ∈ (w.heap.getD ref default).listeners, l.2.id < w.nextFuncID) :
    Inv w ref (Battery.empty, w) := by
  refine ⟨hready, Nat.le_refl _, hwf, ?_, ?_⟩
  · intro k fn h
    cases k <;> cases h
  · intro k
    cases k <;> simp [Battery.handle, Battery.empty]

theorem bridgeCallbacks_of_inv (w0 : World) (ref : Nat) (s : Battery × World) (k : Kind)
    (hwf : ∀ l ∈ (w0.heap.getD ref default).listeners, l.2.id < w0.nextFuncID)
    (hinv : Inv w0 ref s) :
    bridgeCallbacks w0 s.2 ref k.name = (s.1.handle k).toList := by
  obtain ⟨_, _, _, hhandles, hlist⟩ := hinv
  unfold bridgeCallbacks
  rw [hlist k, List.filter_append]
  have h1 : (listenersFor w0 ref k.name).filter (fun f => w0.nextFuncID ≤ f.id) = [] := by
    rw [List.filter_eq_nil_iff]
    intro f hf
    have := hwf _ (mem_listenersFor w0 ref k.name f hf)
    simpa using this
  rw [h1, List.nil_append]
  cases hh : s.1.handle k with
  | none => rfl
  | some fn =>
    have := hhandles k fn hh
    simp [this]

/-- C7: starting from the empty bridge on a ready world (whose callbacks all predate the counter
of `js.FuncOf`), after every finite sequence of `addListener` / `removeListener` calls, for every
kind `k` the host has under `k` what it had before followed by the stored handle of `k`, if any;
so the callbacks this bridge has registered under `k` number 1 when a handle is stored for `k`
and 0 otherwise, never more than 1. -/
theorem C7_at_most_one_callback_per_kind (ops : List Op) (w : World) (ref : Nat)
    (hready : Ready w ref)
    (hwf : ∀ l ∈ (w.heap.getD ref default).listeners, l.2.id < w.nextFuncID) :
    ∃ (e1 : Battery) (w1 : World),
      Battery.run (Battery.empty, w) ops = .ok (e1, w1) ∧
      ∀ k : Kind,
        listenersFor w1 ref k.name = listenersFor w ref k.name ++ (e1.handle k).toList ∧
        (bridgeCallbacks w w1 ref k.name).length = (if (e1.handle k).isSome then 1 else 0) ∧
        (bridgeCallbacks w w1 ref k.name).length ≤ 1 := by
  obtain ⟨⟨e1, w1⟩, hrun, hinv⟩ :=
    inv_run w ref ops hwf (Battery.empty, w) (inv_initial w ref hready hwf)
  refine ⟨e1, w1, hrun, fun k => ?_⟩
  have hb := bridgeCallbacks_of_inv w ref (e1, w1) k hwf hinv
  simp only [] at hb
  refine ⟨hinv.2.2.2.2 k, ?_, ?_⟩
  · rw [hb]; cases e1.handle k <;> rfl
  · rw [hb]; cases e1.handle k <;> simp

/-- C7 in the end-to-end scenario, for a sequence with repeated adds and removes. -/
theorem C7_at_most_one_callback_per_kind_witness :
    ∃ (e1 : Battery) (w1 : World),
      Battery.run (Battery.empty, sampleWorld)
        [.add .levelChange 1, .add .levelChange 2, .remove .chargingChange,
         .add .chargingChange 3, .remove .levelChange, .add .levelChange 4] = .ok (e1, w1) ∧
      ∀ k : Kind,
        listenersFor w1 0 k.name = listenersFor sampleWorld 0 k.name ++ (e1.handle k).toList ∧
        (bridgeCallbacks sampleWorld w1 0 k.name).length =
          (if (e1.handle k).isSome then 1 else 0) ∧
        (bridgeCallbacks sampleWorld w1 0 k.name).length ≤ 1 :=
  C7_at_most_one_callback_per_kind _ sampleWorld 0 (by decide) (by decide)


theorem hasState_hostUpdate (w : World) (ref : Nat) (f : Firing) (hlt : ref < w.heap.length)
    (h1 : minInt ≤ f.chargingTime) (h2 : f.chargingTime ≤ maxInt)
    (h3 : minInt ≤ f.dischargingTime) (h4 : f.dischargingTime ≤ maxInt) :
    HasState (hostUpdate w ref f).heap ref f.charging f.chargingTime f.dischargingTime
      f.level := by
  unfold HasState hostUpdate
  simp only []
  rw [getD_set_self _ _ _ hlt]
  exact ⟨rfl, rfl, rfl, rfl, h1, h2, h3, h4⟩

theorem listenersFor_hostUpdate (w : World) (ref : Nat) (f : Firing) (type : String)
    (hlt : ref < w.heap.length) :
    listenersFor (hostUpdate w ref f) ref type = listenersFor w ref type := by
  unfold listenersFor hostUpdate
  simp only []
  rw [getD_set_self _ _ _ hlt]

/-- With a single callback registered under `type`, a sequence of firings, each with at least one
argument, sends one snapshot per firing, in firing order. -/
theorem fireEach_single (ref : Nat) (type : String) (fn : Func) (firings : List Firing)
    (hf : ∀ f ∈ firings, f.args ≠ [] ∧ minInt ≤ f.chargingTime ∧ f.chargingTime ≤ maxInt ∧
      minInt ≤ f.dischargingTime ∧ f.dischargingTime ≤ maxInt) :
    ∀ w : World, Ready w ref → listenersFor w ref type = [fn] →
      ∃ w2, fireEach w ref type firings = .ok w2 ∧
        w2.sent = w.sent ++ firings.map (fun f => (fn.fn.batteryData, f.snapshot fn.fn.name)) := by
  induction firings with
  | nil => exact fun w _ _ => ⟨w, rfl, by simp⟩
  | cons f rest ih =>
    intro w hready hl
    obtain ⟨hargs, h1, h2, h3, h4⟩ := hf f (List.mem_cons_self _ _)
    have hlt : ref < w.heap.length := hready.2
    have hs := hasState_hostUpdate w ref f hlt h1 h2 h3 h4
    have hl1 : listenersFor (hostUpdate w ref f) ref type = [fn] := by
      rw [listenersFor_hostUpdate w ref f type hlt]; exact hl
    obtain ⟨a, args, hargs2⟩ := List.exists_cons_of_ne_nil hargs
    have hfire := fire_single (hostUpdate w ref f) ref type fn f.charging f.chargingTime
      f.dischargingTime f.level f.this a args hready.1 hs hl1
    rw [← hargs2] at hfire
    have hready1 : Ready ({ hostUpdate w ref f with sent := (hostUpdate w ref f).sent ++
        [(fn.fn.batteryData, (⟨fn.fn.name, f.this, f.charging, normalize f.chargingTime,
          normalize f.dischargingTime, f.level⟩ : Data))] } : World) ref :=
      ⟨hready.1, by simpa [hostUpdate] using hlt⟩
    obtain ⟨w2, hw2, hsent⟩ := ih (fun g hg => hf g (List.mem_cons_of_mem _ hg)) _ hready1 hl1
    refine ⟨w2, ?_, ?_⟩
    · simp only [fireEach, hfire, bind, Except.bind]
      exact hw2
    · rw [hsent]
      simp [hostUpdate, Firing.snapshot]


/-- On a ready bridge without a handle for `k`, with no callback under `k` at the host object,
`addListener k ch` leaves exactly its new callback registered under `k` and sends nothing. -/
theorem add_registers (k : Kind) (e : Battery) (w : World) (ref : Nat) (ch : Chan)
    (hready : Ready w ref) (hnone : e.handle k = none)
    (hfree : listenersFor w ref k.name = []) :
    ∃ (e1 : Battery) (w1 : World),
      e.addListener k ch w = .ok (e1, w1) ∧
      Ready w1 ref ∧
      listenersFor w1 ref k.name = [⟨w.nextFuncID, ⟨k.name, ch⟩⟩] ∧
      w1.sent = w.sent := by
  have hlt : ref < w.heap.length := hready.2
  have hfresh : ∀ x ∈ (w.heap.getD ref default).listeners,
      x.1 = k.name → x.2.id ≠ (⟨w.nextFuncID, ⟨k.name, ch⟩⟩ : Func).id :=
    fun x hx ht => (no_listener_of_listenersFor_nil w ref k.name hfree x hx ht).elim
  have hls := listenersFor_set w.objectBactery w.heap (w.nextFuncID + 1) w.sent
    (w.calls ++ [⟨"addEventListener", k.name, ⟨w.nextFuncID, ⟨k.name, ch⟩⟩⟩]) ref
    ((w.heap.getD ref default).addEventListener k.name ⟨w.nextFuncID, ⟨k.name, ch⟩⟩) k.name hlt
  rw [listeners_addEventListener _ k.name k.name _ hfresh] at hls
  have hfree2 : ((w.heap.getD ref default).listeners.filter (fun l => l.1 = k.name)).map
      (fun l => l.2) = [] := hfree
  rw [hfree2] at hls
  simp only [if_true, List.nil_append] at hls
  exact ⟨_, _, addListener_ready k e ch w ref hready hnone, ⟨hready.1, by simpa using hlt⟩,
    hls, rfl⟩

theorem received_of_sent_append (w w2 : World) (ch : Chan) (ds : List Data)
    (h : w2.sent = w.sent ++ ds.map (fun d => (ch, d))) :
    received w2 ch = received w ch ++ ds := by
  unfold received
  rw [h, List.filter_append, List.map_append]
  congr 1
  clear h
  induction ds with
  | nil => rfl
  | cons d rest ih => simp [List.filter_cons, ih]

/-- C8: with one listener for kind `k` on channel `ch` (registered on a ready bridge, the host
having no other callback under `k`), for every finite sequence of host firings, each with at
least one argument and durations a Go `int` holds, the sends are one per firing and in firing
order: the `i`-th value on `ch` is what `EventManager` extracts from the host object's state at
the `i`-th firing. -/
theorem C8_snapshots_in_firing_order (k : Kind) (e : Battery) (w : World) (ref : Nat)
    (ch : Chan) (firings : List Firing)
    (hready : Ready w ref) (hnone : e.handle k = none)
    (hfree : listenersFor w ref k.name = [])
    (hf : ∀ f ∈ firings, f.args ≠ [] ∧ minInt ≤ f.chargingTime ∧ f.chargingTime ≤ maxInt ∧
      minInt ≤ f.dischargingTime ∧ f.dischargingTime ≤ maxInt) :
    ∃ (e1 : Battery) (w1 w2 : World),
      e.addListener k ch w = .ok (e1, w1) ∧
      fireEach w1 ref k.name firings = .ok w2 ∧
      w2.sent = w.sent ++ firings.map (fun f => (ch, f.snapshot k.name)) ∧
      received w2 ch = received w ch ++ firings.map (fun f => f.snapshot k.name) ∧
      (received w2 ch).length = (received w ch).length + firings.length ∧
      ∀ f ∈ firings, ∀ w3 : World, Ready w3 ref →
        EventManager (hostUpdate w3 ref f) k.name f.this f.args = .ok (f.snapshot k.name) := by
  obtain ⟨e1, w1, hadd, hready1, hl1, hsent1⟩ := add_registers k e w ref ch hready hnone hfree
  obtain ⟨w2, hfire, hsent2⟩ := fireEach_single ref k.name _ firings hf w1 hready1 hl1
  rw [hsent1] at hsent2
  simp only [] at hsent2
  have hrec : received w2 ch = received w ch ++ firings.map (fun f => f.snapshot k.name) := by
    apply received_of_sent_append
    rw [hsent2, List.map_map]
    rfl
  refine ⟨e1, w1, w2, hadd, hfire, hsent2, hrec, ?_, ?_⟩
  · rw [hrec]; simp
  · intro f hfm w3 hready3
    obtain ⟨_, h1, h2, h3, h4⟩ := hf f hfm
    exact eventManager_of_state _ ref f.charging f.chargingTime f.dischargingTime f.level
      k.name f.this f.args hready3.1 (hasState_hostUpdate w3 ref f hready3.2 h1 h2 h3 h4)

/-- C8 in the end-to-end scenario: two firings of level-change, the second after the host has
changed the battery state; the channel gets the two snapshots in that order. -/
theorem C8_snapshots_in_firing_order_witness :
    ∃ (e1 : Battery) (w1 w2 : World),
      Battery.empty.addListener .levelChange 1 sampleWorld = .ok (e1, w1) ∧
      fireEach w1 0 Kind.levelChange.name sampleFirings = .ok w2 ∧
      w2.sent = sampleWorld.sent ++
        sampleFirings.map (fun f => (1, f.snapshot Kind.levelChange.name)) ∧
      received w2 1 = received sampleWorld 1 ++
        sampleFirings.map (fun f => f.snapshot Kind.levelChange.name) ∧
      (received w2 1).length = (received sampleWorld 1).length + sampleFirings.length ∧
      ∀ f ∈ sampleFirings, ∀ w3 : World, Ready w3 0 →
        EventManager (hostUpdate w3 0 f) Kind.levelChange.name f.this f.args =
          .ok (f.snapshot Kind.levelChange.name) :=
  C8_snapshots_in_firing_order .levelChange Battery.empty sampleWorld 0 1 sampleFirings
    (by decide) (by decide) (by decide) (by decide)


/-! ## The claims about failure -/

theorem getter_of_missing_field (h : Heap) (ref : Nat) (p : String)
    (hp : (h.getD ref default).props.lookup p = none) :
    Value.Get h (.object ref) p = .ok .undefined := by
  simp only [Value.Get, hp, Option.getD_none]

/-- When one of the four getters panics, `Now` and `EventManager` panic. -/
theorem now_panics_of_getter_panics (e : Battery) (w : World) (name : EventName) (this : Value)
    (args : List Value)
    (h : (∃ err, Event.GetIsCharging w.heap ⟨w.objectBactery⟩ = .error err) ∨
      (∃ err, Event.GetChargingTime w.heap ⟨w.objectBactery⟩ = .error err) ∨
      (∃ err, Event.GetDischargingTime w.heap ⟨w.objectBactery⟩ = .error err) ∨
      (∃ err, Event.GetLevel w.heap ⟨w.objectBactery⟩ = .error err)) :
    (∃ err, e.Now w = .error err) ∧ (∃ err, EventManager w name this args = .error err) := by
  unfold Battery.Now EventManager
  cases h1 : Event.GetIsCharging w.heap ⟨w.objectBactery⟩ <;>
  cases h2 : Event.GetChargingTime w.heap ⟨w.objectBactery⟩ <;>
  cases h3 : Event.GetDischargingTime w.heap ⟨w.objectBactery⟩ <;>
  cases h4 : Event.GetLevel w.heap ⟨w.objectBactery⟩ <;>
  simp_all [bind, Except.bind]

/-- C9, as the code has it, at a host object without any of the four fields: each getter panics
with a `ValueError` (the typed read of `undefined`), and so does `Now`; `GetIsCharging` does not
return `false`, `GetChargingTime` does not return `0`. -/
theorem C9_missing_field_panics_counterexample :
    Event.GetIsCharging [⟨[], []⟩] ⟨.object 0⟩ = .error ⟨"Value.Bool", .TypeUndefined⟩ ∧
    Event.GetChargingTime [⟨[], []⟩] ⟨.object 0⟩ = .error ⟨"Value.Int", .TypeUndefined⟩ ∧
    Event.GetDischargingTime [⟨[], []⟩] ⟨.object 0⟩ = .error ⟨"Value.Int", .TypeUndefined⟩ ∧
    Event.GetLevel [⟨[], []⟩] ⟨.object 0⟩ = .error ⟨"Value.Float", .TypeUndefined⟩ ∧
    Battery.Now Battery.empty ⟨.object 0, [⟨[], []⟩], 0, [], []⟩ =
      .error ⟨"Value.Bool", .TypeUndefined⟩ ∧
    Event.GetIsCharging [⟨[], []⟩] ⟨.object 0⟩ ≠ .ok false ∧
    Event.GetChargingTime [⟨[], []⟩] ⟨.object 0⟩ ≠ .ok 0 := by
  decide

/-- With the four getters returning normally, `Now` and `EventManager` return the snapshot of
the four values. -/
theorem now_of_getters (e : Battery) (w : World) (name : EventName) (this : Value)
    (args : List Value) (c : Bool) (tv dv : Int) (l : Float64)
    (h1 : Event.GetIsCharging w.heap ⟨w.objectBactery⟩ = .ok c)
    (h2 : Event.GetChargingTime w.heap ⟨w.objectBactery⟩ = .ok tv)
    (h3 : Event.GetDischargingTime w.heap ⟨w.objectBactery⟩ = .ok dv)
    (h4 : Event.GetLevel w.heap ⟨w.objectBactery⟩ = .ok l) :
    e.Now w = .ok ⟨"battery now", .undefined, c, tv, dv, l⟩ ∧
    EventManager w name this args = .ok ⟨name, this, c, tv, dv, l⟩ := by
  constructor
  · simp only [Battery.Now, h1, h2, h3, h4, bind, Except.bind, pure, Except.pure]
    rfl
  · simp only [EventManager, h1, h2, h3, h4, bind, Except.bind, pure, Except.pure]

/-- A duration getter returns normally whenever its field reads as a number. -/
theorem duration_of_number (x : Float64) :
    ∃ v : Int, (do
      let raw ← (Value.number x).Int
      if raw < 0 then pure (-1) else pure raw : Except ValueError Int) = .ok v ∧
      ∀ t : Int, minInt ≤ t → t ≤ maxInt → x = .ofInt t → v = normalize t := by
  refine ⟨normalize x.toInt, ?_, ?_⟩
  · simp only [Value.Int, bind, Except.bind, normalize, pure, Except.pure]
    split <;> rfl
  · intro t h1 h2 hx
    rw [hx, toInt_ofInt t h1 h2]

/-- C9, amended: on an acquired host object whose four fields read as a boolean and three
numbers, the four getters, `Now` and `EventManager` return normally: the charging flag and the
level are the values of the fields, and a duration whose field is an integer that fits a Go `int`
is that integer normalized (`-1` when negative). Where a field reads `undefined` (it is missing,
or present and undefined), the getter of that field panics with the `ValueError` of the typed
read of `undefined`, and `Now` and `EventManager` panic as soon as any of the four does. -/
theorem C9_extraction_needs_typed_fields (e : Battery) (w : World) (ref : Nat)
    (name : EventName) (this : Value) (args : List Value)
    (hobj : w.objectBactery = .object ref) :
    (∀ (c : Bool) (x y l : Float64),
      Value.Get w.heap (.object ref) "charging" = .ok (.boolean c) →
      Value.Get w.heap (.object ref) "chargingTime" = .ok (.number x) →
      Value.Get w.heap (.object ref) "dischargingTime" = .ok (.number y) →
      Value.Get w.heap (.object ref) "level" = .ok (.number l) →
        Event.GetIsCharging w.heap ⟨.object ref⟩ = .ok c ∧
        Event.GetLevel w.heap ⟨.object ref⟩ = .ok l ∧
        ∃ tv dv : Int,
          Event.GetChargingTime w.heap ⟨.object ref⟩ = .ok tv ∧
          Event.GetDischargingTime w.heap ⟨.object ref⟩ = .ok dv ∧
          e.Now w = .ok ⟨"battery now", .undefined, c, tv, dv, l⟩ ∧
          EventManager w name this args = .ok ⟨name, this, c, tv, dv, l⟩ ∧
          (∀ t : Int, minInt ≤ t → t ≤ maxInt → x = .ofInt t → tv = normalize t) ∧
          (∀ d : Int, minInt ≤ d → d ≤ maxInt → y = .ofInt d → dv = normalize d)) ∧
    (Value.Get w.heap (.object ref) "charging" = .ok .undefined →
      Event.GetIsCharging w.heap ⟨.object ref⟩ = .error ⟨"Value.Bool", .TypeUndefined⟩) ∧
    (Value.Get w.heap (.object ref) "chargingTime" = .ok .undefined →
      Event.GetChargingTime w.heap ⟨.object ref⟩ = .error ⟨"Value.Int", .TypeUndefined⟩) ∧
    (Value.Get w.heap (.object ref) "dischargingTime" = .ok .undefined →
      Event.GetDischargingTime w.heap ⟨.object ref⟩ = .error ⟨"Value.Int", .TypeUndefined⟩) ∧
    (Value.Get w.heap (.object ref) "level" = .ok .undefined →
      Event.GetLevel w.heap ⟨.object ref⟩ = .error ⟨"Value.Float", .TypeUndefined⟩) ∧
    ((Value.Get w.heap (.object ref) "charging" = .ok .undefined ∨
      Value.Get w.heap (.object ref) "chargingTime" = .ok .undefined ∨
      Value.Get w.heap (.object ref) "dischargingTime" = .ok .undefined ∨
      Value.Get w.heap (.object ref) "level" = .ok .undefined) →
      (∃ err, e.Now w = .error err) ∧ (∃ err, EventManager w name this args = .error err)) := by
  have g1 : Value.Get w.heap (.object ref) "charging" = .ok .undefined →
      Event.GetIsCharging w.heap ⟨.object ref⟩ = .error ⟨"Value.Bool", .TypeUndefined⟩ := by
    intro hp
    simp only [Event.GetIsCharging, hp, bind, Except.bind]
    rfl
  have g2 : Value.Get w.heap (.object ref) "chargingTime" = .ok .undefined →
      Event.GetChargingTime w.heap ⟨.object ref⟩ = .error ⟨"Value.Int", .TypeUndefined⟩ := by
    intro hp
    simp only [Event.GetChargingTime, hp, bind, Except.bind]
    rfl
  have g3 : Value.Get w.heap (.object ref) "dischargingTime" = .ok .undefined →
      Event.GetDischargingTime w.heap ⟨.object ref⟩ = .error ⟨"Value.Int", .TypeUndefined⟩ := by
    intro hp
    simp only [Event.GetDischargingTime, hp, bind, Except.bind]
    rfl
  have g4 : Value.Get w.heap (.object ref) "level" = .ok .undefined →
      Event.GetLevel w.heap ⟨.object ref⟩ = .error ⟨"Value.Float", .TypeUndefined⟩ := by
    intro hp
    simp only [Event.GetLevel, hp, bind, Except.bind]
    rfl
  refine ⟨?_, g1, g2, g3, g4, ?_⟩
  · intro c x y l hc ht hd hl
    have k1 : Event.GetIsCharging w.heap ⟨.object ref⟩ = .ok c := by
      simp only [Event.GetIsCharging, hc, bind, Except.bind]
      rfl
    have k4 : Event.GetLevel w.heap ⟨.object ref⟩ = .ok l := by
      simp only [Event.GetLevel, hl, bind, Except.bind]
      rfl
    obtain ⟨tv, htv, htv2⟩ := duration_of_number x
    obtain ⟨dv, hdv, hdv2⟩ := duration_of_number y
    have k2 : Event.GetChargingTime w.heap ⟨.object ref⟩ = .ok tv := by
      simp only [Event.GetChargingTime, ht]
      exact htv
    have k3 : Event.GetDischargingTime w.heap ⟨.object ref⟩ = .ok dv := by
      simp only [Event.GetDischargingTime, hd]
      exact hdv
    have hn := now_of_getters e w name this args c tv dv l (by rw [hobj]; exact k1)
      (by rw [hobj]; exact k2) (by rw [hobj]; exact k3) (by rw [hobj]; exact k4)
    exact ⟨k1, k4, tv, dv, k2, k3, hn.1, hn.2, htv2, hdv2⟩
  · intro hm
    apply now_panics_of_getter_panics
    rw [hobj]
    rcases hm with h | h | h | h
    · exact Or.inl ⟨_, g1 h⟩
    · exact Or.inr (Or.inl ⟨_, g2 h⟩)
    · exact Or.inr (Or.inr (Or.inl ⟨_, g3 h⟩))
    · exact Or.inr (Or.inr (Or.inr ⟨_, g4 h⟩))

/-- C9, amended, in the end-to-end scenario (all four fields present: the getters and `Now`
return normally, the charging time being `-1`), at a host object that lacks the `level` field
(`GetLevel` and `Now` panic), and at one whose `charging` field is present and undefined
(`GetIsCharging` and `Now` panic). -/
theorem C9_extraction_needs_typed_fields_witness :
    (Event.GetIsCharging sampleWorld.heap ⟨.object 0⟩ = .ok true ∧
      Event.GetLevel sampleWorld.heap ⟨.object 0⟩ = .ok (.finite 7566047373982433 (-54)) ∧
      ∃ tv dv : Int,
        Event.GetChargingTime sampleWorld.heap ⟨.object 0⟩ = .ok tv ∧
        Event.GetDischargingTime sampleWorld.heap ⟨.object 0⟩ = .ok dv ∧
        Battery.Now Battery.empty sampleWorld = .ok ⟨"battery now", .undefined, true, tv, dv,
          .finite 7566047373982433 (-54)⟩ ∧
        EventManager sampleWorld "levelchange" (.object 0) [] = .ok ⟨"levelchange", .object 0,
          true, tv, dv, .finite 7566047373982433 (-54)⟩ ∧
        (∀ t : Int, minInt ≤ t → t ≤ maxInt → Float64.ofInt (-5) = .ofInt t →
          tv = normalize t) ∧
        (∀ d : Int, minInt ≤ d → d ≤ maxInt → Float64.ofInt 3600 = .ofInt d →
          dv = normalize d)) ∧
    Event.GetLevel sampleNoLevel.heap ⟨.object 0⟩ = .error ⟨"Value.Float", .TypeUndefined⟩ ∧
    (∃ err, Battery.Now Battery.empty sampleNoLevel = .error err) ∧
    Event.GetIsCharging sampleUndefinedCharging.heap ⟨.object 0⟩ =
      .error ⟨"Value.Bool", .TypeUndefined⟩ ∧
    (∃ err, Battery.Now Battery.empty sampleUndefinedCharging = .error err) :=
  ⟨(C9_extraction_needs_typed_fields Battery.empty sampleWorld 0 "levelchange" (.object 0) []
      (by decide)).1 true (.ofInt (-5)) (.ofInt 3600) (.finite 7566047373982433 (-54))
      (by decide) (by decide) (by decide) (by decide),
   (C9_extraction_needs_typed_fields Battery.empty sampleNoLevel 0 "levelchange" (.object 0) []
      (by decide)).2.2.2.2.1 (by decide),
   ((C9_extraction_needs_typed_fields Battery.empty sampleNoLevel 0 "levelchange" (.object 0) []
      (by decide)).2.2.2.2.2 (Or.inr (Or.inr (Or.inr (by decide))))).1,
   (C9_extraction_needs_typed_fields Battery.empty sampleUndefinedCharging 0 "levelchange"
      (.object 0) [] (by decide)).2.1 (by decide),
   ((C9_extraction_needs_typed_fields Battery.empty sampleUndefinedCharging 0 "levelchange"
      (.object 0) [] (by decide)).2.2.2.2.2 (Or.inl (by decide))).1⟩

/-- C10, as the code has it, before `Init`: `objectBactery` is still the zero `js.Value`, and
`Now` panics with the `ValueError` of `Value.Get` on `undefined`; nothing in `Now` checks for
initialization, and the failure is the one any non-object receiver produces. -/
theorem C10_now_uninitialized_counterexample :
    Battery.Now Battery.empty ⟨default, sampleWorld.heap, 0, [], []⟩ =
      .error ⟨"Value.Get", .TypeUndefined⟩ ∧
    ValueError.Error ⟨"Value.Get", .TypeUndefined⟩ =
      "syscall/js: call of Value.Get on undefined" ∧
    Battery.Now Battery.empty ⟨.null, sampleWorld.heap, 0, [], []⟩ =
      .error ⟨"Value.Get", .TypeNull⟩ := by
  decide

/-- C10, amended: while `objectBactery` is the zero `js.Value` (`Init` has not completed),
`Battery.Now` returns no snapshot: it panics with the `ValueError` that `Value.Get` raises on
`undefined`, whatever the bridge and the rest of the world are. -/
theorem C10_now_uninitialized_panics (e : Battery) (w : World)
    (hun : w.objectBactery = default) :
    e.Now w = .error ⟨"Value.Get", .TypeUndefined⟩ ∧ ∀ d : Data, e.Now w ≠ .ok d := by
  have h : e.Now w = .error ⟨"Value.Get", .TypeUndefined⟩ := by
    simp only [Battery.Now, hun, Event.GetIsCharging, Value.Get, bind, Except.bind]
    rfl
  exact ⟨h, fun d hd => by rw [h] at hd; cases hd⟩

/-- C10, amended, in the end-to-end scenario before acquisition. -/
theorem C10_now_uninitialized_panics_witness :
    Battery.Now Battery.empty ⟨default, sampleWorld.heap, 0, [], []⟩ =
      .error ⟨"Value.Get", .TypeUndefined⟩ ∧
    ∀ d : Data, Battery.Now Battery.empty ⟨default, sampleWorld.heap, 0, [], []⟩ ≠ .ok d :=
  C10_now_uninitialized_panics Battery.empty ⟨default, sampleWorld.heap, 0, [], []⟩ rfl


/-! ## The claim about event names -/

/-- A snapshot `EventManager` returns carries the name and the `this` it was called with. -/
theorem eventManager_name_this (w : World) (name : EventName) (this : Value)
    (args : List Value) (d : Data) (h : EventManager w name this args = .ok d) :
    d.EventName = name ∧ d.This = this := by
  unfold EventManager at h
  cases h1 : Event.GetIsCharging w.heap ⟨w.objectBactery⟩ <;>
  cases h2 : Event.GetChargingTime w.heap ⟨w.objectBactery⟩ <;>
  cases h3 : Event.GetDischargingTime w.heap ⟨w.objectBactery⟩ <;>
  cases h4 : Event.GetLevel w.heap ⟨w.objectBactery⟩ <;>
  simp_all [bind, Except.bind, pure, Except.pure]
  subst h
  exact ⟨rfl, rfl⟩

/-- Whatever a listener callback does when invoked, it either leaves the world as it is or adds
one send, on its channel, of a snapshot with its event name and the `this` of the invocation. -/
theorem invoke_sends_named (f : GoFunc) (w w2 : World) (this : Value) (args : List Value)
    (h : f.invoke w this args = .ok w2) :
    w2 = w ∨ ∃ d : Data, w2 = { w with sent := w.sent ++ [(f.batteryData, d)] } ∧
      d.EventName = f.name ∧ d.This = this := by
  unfold GoFunc.invoke at h
  by_cases ha : args.length = 0
  · simp only [ha, if_true, Except.ok.injEq] at h
    exact Or.inl h.symm
  · simp only [ha, if_false] at h
    cases hd : EventManager w f.name this args with
    | error err => simp [hd, bind, Except.bind] at h
    | ok d =>
      simp only [hd, bind, Except.bind, pure, Except.pure, Except.ok.injEq] at h
      exact Or.inr ⟨d, h.symm, eventManager_name_this w f.name this args d hd⟩

/-- C11: for each of the four kinds `k`, whose constants are `"chargingchange"`,
`"chargingtimechange"`, `"dischargingtimechange"` and `"levelchange"`: on a ready bridge without
a handle for `k`, `addListener k ch` registers its callback with the host under exactly the
string of the constant of `k` and changes only the handle of `k`; every snapshot that callback
sends goes to `ch` with `EventName` that constant and `This` the `this` of the invocation (and
with a well-typed host object and at least one argument it does send one); `removeListener k`
then unregisters that callback under the same string and changes only the handle of `k`. -/
theorem C11_kind_tag_and_origin (k : Kind) (e : Battery) (ch : Chan) (w : World) (ref : Nat)
    (hready : Ready w ref) (hnone : e.handle k = none) :
    (Kind.chargingChange.name = "chargingchange" ∧
      Kind.chargingTimeChange.name = "chargingtimechange" ∧
      Kind.dischargingTimeChange.name = "dischargingtimechange" ∧
      Kind.levelChange.name = "levelchange") ∧
    ∃ (e1 e2 : Battery) (w1 w2 : World) (fn : Func),
      e.addListener k ch w = .ok (e1, w1) ∧
      w1.calls = w.calls ++ [⟨"addEventListener", k.name, fn⟩] ∧
      (w1.heap.getD ref default).listeners =
        ((w.heap.getD ref default).addEventListener k.name fn).listeners ∧
      e1.handle k = some fn ∧
      (∀ k2, k2 ≠ k → e1.handle k2 = e.handle k2) ∧
      (∀ (w3 w4 : World) (this : Value) (args : List Value),
        fn.fn.invoke w3 this args = .ok w4 →
          w4 = w3 ∨ ∃ d : Data, w4 = { w3 with sent := w3.sent ++ [(ch, d)] } ∧
            d.EventName = k.name ∧ d.This = this) ∧
      (∀ (w3 : World) (r : Nat) (c : Bool) (t d : Int) (l : Float64) (this a : Value)
        (args : List Value), w3.objectBactery = .object r → HasState w3.heap r c t d l →
          fn.fn.invoke w3 this (a :: args) = .ok { w3 with sent := w3.sent ++
            [(ch, ⟨k.name, this, c, normalize t, normalize d, l⟩)] }) ∧
      e1.removeListener k w1 = .ok (e2, w2) ∧
      w2.calls = w1.calls ++ [⟨"removeEventListener", k.name, fn⟩] ∧
      e2.handle k = none ∧
      (∀ k2, k2 ≠ k → e2.handle k2 = e1.handle k2) := by
  have hlt : ref < w.heap.length := hready.2
  have hh : (e.setHandle k (some ⟨w.nextFuncID, ⟨k.name, ch⟩⟩)).handle k =
      some ⟨w.nextFuncID, ⟨k.name, ch⟩⟩ := by
    rw [handle_setHandle]; simp
  have hready1 : Ready (⟨w.objectBactery, w.heap.set ref
      ((w.heap.getD ref default).addEventListener k.name ⟨w.nextFuncID, ⟨k.name, ch⟩⟩),
      w.nextFuncID + 1, w.sent,
      w.calls ++ [⟨"addEventListener", k.name, ⟨w.nextFuncID, ⟨k.name, ch⟩⟩⟩]⟩ : World) ref :=
    ⟨hready.1, by simpa using hlt⟩
  refine ⟨⟨rfl, rfl, rfl, rfl⟩, _, _, _, _, ⟨w.nextFuncID, ⟨k.name, ch⟩⟩,
    addListener_ready k e ch w ref hready hnone, rfl, ?_, hh, ?_, ?_, ?_,
    removeListener_ready k _ _ ref _ hready1 hh, rfl, ?_, ?_⟩
  · simp only []
    rw [getD_set_self _ _ _ hlt]
  · intro k2 hk
    rw [handle_setHandle]; simp [hk]
  · intro w3 w4 this args h
    exact invoke_sends_named _ w3 w4 this args h
  · intro w3 r c t d l this a args hobj hs
    exact invoke_of_state _ w3 r c t d l this a args hobj hs
  · rw [handle_setHandle]; simp
  · intro k2 hk
    rw [handle_setHandle]; simp [hk]

/-- C11 in the end-to-end scenario for the charging-time kind on channel `1`. -/
theorem C11_kind_tag_and_origin_witness :
    (Kind.chargingChange.name = "chargingchange" ∧
      Kind.chargingTimeChange.name = "chargingtimechange" ∧
      Kind.dischargingTimeChange.name = "dischargingtimechange" ∧
      Kind.levelChange.name = "levelchange") ∧
    ∃ (e1 e2 : Battery) (w1 w2 : World) (fn : Func),
      Battery.empty.addListener .chargingTimeChange 1 sampleWorld = .ok (e1, w1) ∧
      w1.calls = sampleWorld.calls ++
        [⟨"addEventListener", Kind.chargingTimeChange.name, fn⟩] ∧
      (w1.heap.getD 0 default).listeners =
        ((sampleWorld.heap.getD 0 default).addEventListener Kind.chargingTimeChange.name
          fn).listeners ∧
      e1.handle .chargingTimeChange = some fn ∧
      (∀ k2, k2 ≠ Kind.chargingTimeChange → e1.handle k2 = Battery.empty.handle k2) ∧
      (∀ (w3 w4 : World) (this : Value) (args : List Value),
        fn.fn.invoke w3 this args = .ok w4 →
          w4 = w3 ∨ ∃ d : Data, w4 = { w3 with sent := w3.sent ++ [(1, d)] } ∧
            d.EventName = Kind.chargingTimeChange.name ∧ d.This = this) ∧
      (∀ (w3 : World) (r : Nat) (c : Bool) (t d : Int) (l : Float64) (this a : Value)
        (args : List Value), w3.objectBactery = .object r → HasState w3.heap r c t d l →
          fn.fn.invoke w3 this (a :: args) = .ok { w3 with sent := w3.sent ++
            [(1, ⟨Kind.chargingTimeChange.name, this, c, normalize t, normalize d, l⟩)] }) ∧
      e1.removeListener .chargingTimeChange w1 = .ok (e2, w2) ∧
      w2.calls = w1.calls ++ [⟨"removeEventListener", Kind.chargingTimeChange.name, fn⟩] ∧
      e2.handle .chargingTimeChange = none ∧
      (∀ k2, k2 ≠ Kind.chargingTimeChange → e2.handle k2 = e1.handle k2) :=
  C11_kind_tag_and_origin .chargingTimeChange Battery.empty 1 sampleWorld 0 (by decide)
    (by decide)

end battery
